import Mathlib

/-
Verification of the chunk generation core (src/chunkWorker.ts) of
Sakalt/Hotalcraft against its natural-language specification.

The generator is embedded shallowly:

* Block identifiers become an inductive type.  The block registry itself
  lives in src/Block.ts, which is not among the provided sources; per the
  specification the registry consists of Air, Bedrock, Stone, Dirt, Grass,
  OakLog and Leaves plus one identifier per configured resource, the latter
  rendered here by a Resource constructor indexed by a number.
* The chunk grid is a total function from coordinates to block identifiers;
  every stage of the source only ever touches indices inside the configured
  bounds except for the tree stage, whose vertical index arithmetic is
  unguarded in the source (indexing a nested JS array outside its range
  yields undefined and the subsequent access raises a TypeError).  The tree
  stage is therefore embedded in the Except monad, with an explicit bounds
  guard exactly where the source would raise.
* The seeded RNG (src/RNG.ts, not among the provided sources) and the
  simplex noise fields (an external three.js dependency) are modelled from
  the spec: deterministic seed-derived black boxes, the noise fields as
  functions producing a rational value, the RNG as a stream of rational
  draws indexed by a counter.  JS Math.floor and Math.round are modelled
  exactly on the rationals.
-/

set_option maxRecDepth 8000

namespace Hotalcraft

/-- Block identifiers.  Modelled from the spec: src/Block.ts is not among
the provided sources; the spec lists the seven terrain blocks plus one
identifier per configured resource type. -/
inductive BlockID where
  | Air
  | Bedrock
  | Stone
  | Dirt
  | Grass
  | OakLog
  | Leaves
  | Resource (n : Nat)
deriving DecidableEq

/-- Three rational coordinates, standing in for THREE.Vector3. -/
structure Vec3 where
  x : ℚ
  y : ℚ
  z : ℚ

/-- World size configuration: the chunk is width by height by width. -/
structure WorldSize where
  width : Nat
  height : Nat

/-- A min and max bound for an integer-valued drawn quantity. -/
structure MinMaxN where
  min : Nat
  max : Nat

/-- Offset plus magnitude pair used for the surface and bedrock depths. -/
structure NoiseLayer where
  offset : ℚ
  magnitude : ℚ

/-- Terrain heightmap parameters. -/
structure TerrainParams where
  scale : ℚ
  offset : ℚ
  magnitude : ℚ

/-- Canopy parameters for trees. -/
structure CanopyParams where
  density : ℚ
  size : MinMaxN

/-- Tree parameters. -/
structure TreesParams where
  frequency : ℚ
  trunkHeight : MinMaxN
  canopy : CanopyParams

/-- World generation parameters (the seed is represented indirectly by the
seed-derived noise and RNG functions in GenCtx). -/
structure WorldParams where
  terrain : TerrainParams
  surface : NoiseLayer
  bedrock : NoiseLayer
  trees : TreesParams

/-- One entry of the ordered resource configuration.  Modelled from the
spec: the oreConfig table lives in src/Block.ts, which is not among the
provided sources; per the spec each entry carries a block identifier, a
per-axis noise scale and a scarcity threshold, and entry order decides
overwrite precedence. -/
structure OreEntry where
  id : BlockID
  scale : Vec3
  scarcity : ℚ

/-- Modelled from the spec: the deterministic seed-derived random state.
src/RNG.ts is not among the provided sources; the spec treats the RNG as a
black-box deterministic generator keyed by a seed and each noise field as a
black-box deterministic function of coordinates.  The source builds one
fresh SimplexNoise instance per stage from the shared RNG; the three fields
appear here as separate functions, and the direct RNG draws of the tree
stage as a stream of rationals read off at an incrementing counter. -/
structure GenCtx where
  noise3 : ℚ → ℚ → ℚ → ℚ
  noiseTerrain : ℚ → ℚ → ℚ
  noiseTrees : ℚ → ℚ → ℚ
  rand : Nat → ℚ

/-- A chunk grid: block identifier at each (x, y, z). -/
abbrev Grid := Nat → Nat → Nat → BlockID

/-- Write one cell of the grid. -/
def setCell (g : Grid) (x y z : Nat) (b : BlockID) : Grid :=
  fun x' y' z' => if x' = x ∧ y' = y ∧ z' = z then b else g x' y' z'

/-- The grid allocator: every cell Air. -/
def initEmptyChunk : Grid := fun _ _ _ => BlockID.Air

/-- In-bounds predicate for a cell of the configured dimensions. -/
def inB (size : WorldSize) (x y z : Nat) : Prop :=
  x < size.width ∧ y < size.height ∧ z < size.width

instance (size : WorldSize) (x y z : Nat) : Decidable (inB size x y z) := by
  unfold inB; infer_instance

/-- The threshold test of the resource stage for one configured resource at
one cell: the 3D noise sample at the world-space scaled coordinate strictly
exceeds the scarcity threshold. -/
def orePassCond (noise3 : ℚ → ℚ → ℚ → ℚ) (config : OreEntry) (chunkPos : Vec3)
    (x y z : Nat) : Prop :=
  noise3 ((chunkPos.x + (x : ℚ)) / config.scale.x)
    ((chunkPos.y + (y : ℚ)) / config.scale.y)
    ((chunkPos.z + (z : ℚ)) / config.scale.z) > config.scarcity

instance (noise3 : ℚ → ℚ → ℚ → ℚ) (config : OreEntry) (chunkPos : Vec3)
    (x y z : Nat) : Decidable (orePassCond noise3 config chunkPos x y z) := by
  unfold orePassCond; infer_instance

/-- One pass of the resource stage over the whole grid volume for a single
configured resource. -/
def orePass (noise3 : ℚ → ℚ → ℚ → ℚ) (config : OreEntry) (size : WorldSize)
    (chunkPos : Vec3) (input : Grid) : Grid :=
  (List.range size.width).foldl (fun gx x =>
    (List.range size.height).foldl (fun gy y =>
      (List.range size.width).foldl (fun gz z =>
        if orePassCond noise3 config chunkPos x y z then
          setCell gz x y z config.id
        else gz) gy) gx) input

/-- Generates the resources (coal, stone, etc.) for the world. -/
def generateResources (ctx : GenCtx) (oreConfig : List OreEntry) (input : Grid)
    (size : WorldSize) (chunkPos : Vec3) : Grid :=
  oreConfig.foldl (fun g config => orePass ctx.noise3 config size chunkPos g) input

/-- JS Math.max(0, Math.min(v, height - 1)) on an integer height sample. -/
def jsClamp (v : ℤ) (height : Nat) : Nat :=
  (max 0 (min v ((height : ℤ) - 1))).toNat

/-- The terrain surface height of a column: floor of height times the
scaled 2D noise sample, clamped into the vertical range. -/
def heightAt (noise2 : ℚ → ℚ → ℚ) (size : WorldSize) (params : WorldParams)
    (chunkPos : Vec3) (x z : Nat) : Nat :=
  jsClamp
    ⌊(size.height : ℚ) *
      (params.terrain.offset + params.terrain.magnitude *
        noise2 ((chunkPos.x + (x : ℚ)) / params.terrain.scale)
          ((chunkPos.z + (z : ℚ)) / params.terrain.scale))⌋
    size.height

/-- Depth of the dirt band beneath the grass of a column, sampled at local
column coordinates. -/
def surfaceAt (noise2 : ℚ → ℚ → ℚ) (params : WorldParams) (x z : Nat) : ℚ :=
  params.surface.offset + |noise2 (x : ℚ) (z : ℚ) * params.surface.magnitude|

/-- Thickness of the bedrock at the base of a column, sampled at local
column coordinates. -/
def bedrockAt (noise2 : ℚ → ℚ → ℚ) (params : WorldParams) (x z : Nat) : ℚ :=
  params.bedrock.offset + |noise2 (x : ℚ) (z : ℚ) * params.bedrock.magnitude|

/-- The per-cell stratification rule of the terrain stage, reading the
cell's previous value for the resource-preserving stone band. -/
def terrainCellVal (prev : BlockID) (h : Nat) (nb ns : ℚ) (y : Nat) : BlockID :=
  if y < h then
    if (y : ℚ) < nb then BlockID.Bedrock
    else if (y : ℚ) < (h : ℚ) - ns then
      (if prev = BlockID.Air then BlockID.Stone else prev)
    else BlockID.Dirt
  else if y = h then BlockID.Grass
  else BlockID.Air

/-- Generates the terrain data. -/
def generateTerrain (ctx : GenCtx) (input : Grid) (size : WorldSize)
    (params : WorldParams) (chunkPos : Vec3) : Grid :=
  (List.range size.width).foldl (fun gx x =>
    (List.range size.width).foldl (fun gz z =>
      let h := heightAt ctx.noiseTerrain size params chunkPos x z
      let ns := surfaceAt ctx.noiseTerrain params x z
      let nb := bedrockAt ctx.noiseTerrain params x z
      (List.range size.height).foldl (fun gy y =>
        setCell gy x y z (terrainCellVal (gy x y z) h nb ns y)) gz) gx) input

/-- JS Math.round on the rationals: floor of the argument plus one half. -/
def jsRound (q : ℚ) : ℤ := ⌊q + 1 / 2⌋

/-- The drawn integer of the tree stage, JS
Math.round(u * (hi - lo)) + lo for a uniform draw u. -/
def drawSpan (u : ℚ) (lo hi : Nat) : ℤ :=
  jsRound (u * ((hi : ℚ) - (lo : ℚ))) + (lo : ℤ)

/-- State of the tree stage: the grid plus the RNG stream counter. -/
structure TreeSt where
  g : Grid
  k : Nat

/-- The list of integers lo, lo+1, ..., lo+n-1. -/
def intsFrom (lo : ℤ) (n : Nat) : List ℤ :=
  (List.range n).map (fun (j : Nat) => lo + (j : ℤ))

/-- The list of integers -R, ..., R (empty when R is negative). -/
def cubeRange (R : ℤ) : List ℤ := intsFrom (-R) (2 * R + 1).toNat

/-- The canopy cube offsets in source iteration order: dx outermost, then
dy, then dz, each ranging over -R..R. -/
def canopyOffsets (R : ℤ) : List (ℤ × ℤ × ℤ) :=
  (cubeRange R).flatMap (fun dx =>
    (cubeRange R).flatMap (fun dy =>
      (cubeRange R).map (fun dz => (dx, dy, dz))))

/-- A vertical-indexed write of the tree stage.  The source writes
input[x][i][z] with an unguarded integer i; when i is outside the vertical
range the nested JS array lookup yields undefined and the assignment raises
a TypeError, modelled here as an error. -/
def writeY (size : WorldSize) (x : Nat) (i : ℤ) (z : Nat) (b : BlockID)
    (st : TreeSt) : Except Unit TreeSt :=
  if 0 ≤ i ∧ i < (size.height : ℤ) then
    Except.ok { st with g := setCell st.g x i.toNat z b }
  else Except.error ()

/-- The canopy cell read of the tree stage.  The source reads
input[a][b][c]: an out-of-range a or b makes the inner lookup an access on
undefined, raising a TypeError (an error here); an out-of-range c merely
yields undefined, which is unequal to Air, so the cell is skipped.  The
boolean result says whether the cell must be skipped because it is not
currently Air. -/
def canopyCheck (size : WorldSize) (g : Grid) (a b c : ℤ) : Except Unit Bool :=
  if 0 ≤ a ∧ a < (size.width : ℤ) ∧ 0 ≤ b ∧ b < (size.height : ℤ) then
    if 0 ≤ c ∧ c < (size.width : ℤ) then
      Except.ok (decide (¬ g a.toNat b.toNat c.toNat = BlockID.Air))
    else Except.ok true
  else Except.error ()

/-- One canopy cube cell of the tree stage: skip outside the canopy radius,
skip non-Air cells, then place Leaves when the density draw passes. -/
def canopyCell (ctx : GenCtx) (size : WorldSize) (params : WorldParams)
    (baseX topY baseZ : ℤ) (R : ℤ) (st : TreeSt) (d : ℤ × ℤ × ℤ) :
    Except Unit TreeSt :=
  if d.1 * d.1 + d.2.1 * d.2.1 + d.2.2 * d.2.2 > R * R then Except.ok st
  else
    (canopyCheck size st.g (baseX + d.1) (topY + d.2.1) (baseZ + d.2.2)).bind
      (fun skip =>
        if skip then Except.ok st
        else if ctx.rand st.k > params.trees.canopy.density then
          Except.ok ⟨setCell st.g (baseX + d.1).toNat (topY + d.2.1).toNat
            (baseZ + d.2.2).toNat BlockID.Leaves, st.k + 1⟩
        else Except.ok ⟨st.g, st.k + 1⟩)

/-- Plant one tree whose grass cell sits at height y of column
(baseX, baseZ): draw the trunk height, fill the trunk, draw the canopy
radius and run the canopy cube. -/
def plantTree (ctx : GenCtx) (size : WorldSize) (params : WorldParams)
    (baseX baseZ y : Nat) (st : TreeSt) : Except Unit TreeSt :=
  let baseY : ℤ := (y : ℤ) + 1
  let trunkHeight : ℤ :=
    drawSpan (ctx.rand st.k) params.trees.trunkHeight.min params.trees.trunkHeight.max
  let st1 : TreeSt := { g := st.g, k := st.k + 1 }
  let topY : ℤ := baseY + trunkHeight
  ((intsFrom baseY (topY - baseY).toNat).foldlM
      (fun s i => writeY size baseX i baseZ BlockID.OakLog s) st1).bind
    (fun st2 =>
      let R : ℤ :=
        drawSpan (ctx.rand st2.k) params.trees.canopy.size.min params.trees.canopy.size.max
      let st3 : TreeSt := { g := st2.g, k := st2.k + 1 }
      (canopyOffsets R).foldlM
        (fun s d => canopyCell ctx size params (baseX : ℤ) topY (baseZ : ℤ) R s d) st3)

/-- The downward scan of one candidate column: y from height-1 down to 0,
planting a tree at every cell currently equal to Grass. -/
def scanColumn (ctx : GenCtx) (size : WorldSize) (params : WorldParams)
    (baseX baseZ : Nat) (st : TreeSt) : Except Unit TreeSt :=
  ((List.range size.height).reverse).foldlM
    (fun s y =>
      if s.g baseX y baseZ = BlockID.Grass then
        plantTree ctx size params baseX baseZ y s
      else Except.ok s) st

/-- The candidate base coordinates of the tree stage: canopySize up to
width - canopySize - 1. -/
def baseRange (size : WorldSize) (canopySize : Nat) : List Nat :=
  (List.range (size.width - canopySize - canopySize)).map (fun j => j + canopySize)

/-- Generates trees. -/
def generateTrees (ctx : GenCtx) (st : TreeSt) (size : WorldSize)
    (params : WorldParams) (chunkPos : Vec3) : Except Unit TreeSt :=
  let canopySize := params.trees.canopy.size.max
  (baseRange size canopySize).foldlM
    (fun sX (baseX : Nat) =>
      (baseRange size canopySize).foldlM
        (fun sZ (baseZ : Nat) =>
          let n := ctx.noiseTrees (chunkPos.x + (baseX : ℚ)) (chunkPos.z + (baseZ : ℚ))
            * (1 / 2) + 1 / 2
          if n < 1 - params.trees.frequency then Except.ok sZ
          else scanColumn ctx size params baseX baseZ sZ) sX) st

/-- The chunk generation orchestrator: empty grid, then resources, terrain
and trees in order.  An error of the tree stage propagates. -/
def generateChunk (ctx : GenCtx) (oreConfig : List OreEntry) (chunkSize : WorldSize)
    (params : WorldParams) (x z : ℚ) : Except Unit Grid :=
  let chunkPos : Vec3 := ⟨x, 0, z⟩
  let data0 := initEmptyChunk
  let data1 := generateResources ctx oreConfig data0 chunkSize chunkPos
  let data2 := generateTerrain ctx data1 chunkSize params chunkPos
  (generateTrees ctx ⟨data2, 0⟩ chunkSize params chunkPos).map (fun st => st.g)

/-- Read a cell out of a tree-stage result, Air on error. -/
def exGet (r : Except Unit TreeSt) (x y z : Nat) : BlockID :=
  match r with
  | Except.ok st => st.g x y z
  | Except.error _ => BlockID.Air

/-- Read a cell out of a chunk result, Air on error. -/
def exGetG (r : Except Unit Grid) (x y z : Nat) : BlockID :=
  match r with
  | Except.ok g => g x y z
  | Except.error _ => BlockID.Air

/-- The greatest surface height any column can attain when every terrain
noise sample lies in the closed interval from -1 to 1. -/
def hubHeight (size : WorldSize) (params : WorldParams) : Nat :=
  jsClamp ⌊(size.height : ℚ) * (params.terrain.offset + |params.terrain.magnitude|)⌋
    size.height

/-- A concrete generation context whose noise fields and RNG stream are
identically zero, used for concrete instantiations. -/
def zeroCtx : GenCtx := ⟨fun _ _ _ => 0, fun _ _ => 0, fun _ _ => 0, fun _ => 0⟩

/-- A concrete generation context whose tree-gate noise field is the
constant 1, the top of the noise contract's closed range. -/
def onesTreesCtx : GenCtx := ⟨fun _ _ _ => 0, fun _ _ => 0, fun _ _ => 1, fun _ => 0⟩

/-- A concrete generation context whose RNG stream is the constant 1. -/
def oneRandCtx : GenCtx := ⟨fun _ _ _ => 0, fun _ _ => 0, fun _ _ => 1, fun _ => 1⟩

/-- The descending list of heights at which a column of a grid holds Grass,
in the order the downward scan of the tree stage visits them. -/
def grassList (g : Grid) (size : WorldSize) (baseX baseZ : Nat) : List Nat :=
  ((List.range size.height).reverse).filter
    (fun y => decide (g baseX y baseZ = BlockID.Grass))

/-- How one planted tree may change the grid: every changed cell either
became OakLog in the tree's own column strictly above its grass cell
(a trunk write), or became Leaves in place of Air (a canopy write). -/
def plantChange (baseX baseZ y : Nat) (s s' : TreeSt) : Prop :=
  ∀ x0 y0 z0, s'.g x0 y0 z0 ≠ s.g x0 y0 z0 →
    (s'.g x0 y0 z0 = BlockID.OakLog ∧ x0 = baseX ∧ z0 = baseZ ∧
      (y : ℤ) + 1 ≤ (y0 : ℤ)) ∨
    (s'.g x0 y0 z0 = BlockID.Leaves ∧ s.g x0 y0 z0 = BlockID.Air)

/-- The invariant carried through the tree stage for the no-error theorem:
grass only occurs at or below the greatest terrain height, and every cell
outside the configured dimensions is still Air. -/
def chunkInv (size : WorldSize) (hub : Nat) (s : TreeSt) : Prop :=
  (∀ x0 y0 z0, s.g x0 y0 z0 = BlockID.Grass → y0 ≤ hub) ∧
  (∀ x0 y0 z0, ¬ inB size x0 y0 z0 → s.g x0 y0 z0 = BlockID.Air)

/-! Pointwise characterizations of the grid folds. -/

theorem setCell_get (g : Grid) (x y z : Nat) (b : BlockID) (x' y' z' : Nat) :
    setCell g x y z b x' y' z' =
      if x' = x ∧ y' = y ∧ z' = z then b else g x' y' z' := rfl

/-- A fold of per-index grid updates along List.range n, where the update at
index i rewrites exactly the cells of a region P i as a function of their
own previous value, evaluates pointwise: cells in no region are untouched,
and a cell in the region of exactly one index i gets V i applied to its
original value. -/
theorem foldl_range_pointwise (step : Grid → Nat → Grid)
    (P : Nat → Nat → Nat → Nat → Prop)
    (V : Nat → Nat → Nat → Nat → BlockID → BlockID)
    (hstep1 : ∀ g i x y z, P i x y z → (step g i) x y z = V i x y z (g x y z))
    (hstep2 : ∀ g i x y z, ¬ P i x y z → (step g i) x y z = g x y z) :
    ∀ (n : Nat) (g : Grid) (x y z : Nat),
      ((∀ i, i < n → ¬ P i x y z) →
        ((List.range n).foldl step g) x y z = g x y z) ∧
      (∀ i, i < n → P i x y z → (∀ j, j < n → P j x y z → j = i) →
        ((List.range n).foldl step g) x y z = V i x y z (g x y z)) := by
  intro n
  induction n with
  | zero =>
    intro g x y z
    constructor
    · intro _; simp
    · intro i hi; omega
  | succ n ih =>
    intro g x y z
    have hfold : (List.range (n + 1)).foldl step g =
        step ((List.range n).foldl step g) n := by
      rw [List.range_succ, List.foldl_append, List.foldl_cons, List.foldl_nil]
    constructor
    · intro hnone
      rw [hfold, hstep2 _ _ _ _ _ (hnone n (Nat.lt_succ_self n))]
      exact (ih g x y z).1 (fun i hi => hnone i (Nat.lt_succ_of_lt hi))
    · intro i hi hPi huniq
      rcases Nat.lt_succ_iff_lt_or_eq.mp hi with hlt | heq
      · have hnotn : ¬ P n x y z := by
          intro hPn
          have := huniq n (Nat.lt_succ_self n) hPn
          omega
        rw [hfold, hstep2 _ _ _ _ _ hnotn]
        exact (ih g x y z).2 i hlt hPi
          (fun j hj hPj => huniq j (Nat.lt_succ_of_lt hj) hPj)
      · subst heq
        have hnone : ∀ j, j < i → ¬ P j x y z := by
          intro j hj hPj
          have := huniq j (Nat.lt_succ_of_lt hj) hPj
          omega
        rw [hfold, hstep1 _ _ _ _ _ hPi, (ih g x y z).1 hnone]

theorem orePass_z_get (noise3 : ℚ → ℚ → ℚ → ℚ) (config : OreEntry)
    (chunkPos : Vec3) (x y : Nat) (m : Nat) (g : Grid) (x' y' z' : Nat) :
    ((List.range m).foldl (fun gz z =>
        if orePassCond noise3 config chunkPos x y z then
          setCell gz x y z config.id
        else gz) g) x' y' z' =
      if x' = x ∧ y' = y ∧ z' < m ∧ orePassCond noise3 config chunkPos x y z' then
        config.id
      else g x' y' z' := by
  have h := foldl_range_pointwise
    (fun gz z => if orePassCond noise3 config chunkPos x y z then
        setCell gz x y z config.id else gz)
    (fun i x0 y0 z0 => x0 = x ∧ y0 = y ∧ z0 = i ∧ orePassCond noise3 config chunkPos x y i)
    (fun _ _ _ _ _ => config.id)
    (by
      intro g i x0 y0 z0 hP
      obtain ⟨hx, hy, hz, hc⟩ := hP
      subst hx; subst hy; subst hz
      simp [hc, setCell_get])
    (by
      intro g i x0 y0 z0 hP
      by_cases hc : orePassCond noise3 config chunkPos x y i
      · simp only [if_pos hc, setCell_get]
        rw [if_neg]
        intro ⟨hx, hy, hz⟩
        exact hP ⟨hx, hy, hz, hc⟩
      · simp [hc])
    m g x' y' z'
  by_cases hmem : x' = x ∧ y' = y ∧ z' < m ∧ orePassCond noise3 config chunkPos x y z'
  · obtain ⟨hx, hy, hz, hc⟩ := hmem
    rw [if_pos ⟨hx, hy, hz, hc⟩]
    exact h.2 z' hz ⟨hx, hy, rfl, hc⟩ (fun j _ hPj => hPj.2.2.1.symm)
  · rw [if_neg hmem]
    refine h.1 ?_
    intro i hi hPi
    obtain ⟨hx, hy, hz, hc⟩ := hPi
    subst hz
    exact hmem ⟨hx, hy, hi, hc⟩

theorem orePass_y_get (noise3 : ℚ → ℚ → ℚ → ℚ) (config : OreEntry)
    (chunkPos : Vec3) (size : WorldSize) (x : Nat) (m : Nat) (g : Grid)
    (x' y' z' : Nat) :
    ((List.range m).foldl (fun gy y =>
        (List.range size.width).foldl (fun gz z =>
          if orePassCond noise3 config chunkPos x y z then
            setCell gz x y z config.id
          else gz) gy) g) x' y' z' =
      if x' = x ∧ y' < m ∧ z' < size.width ∧
          orePassCond noise3 config chunkPos x y' z' then
        config.id
      else g x' y' z' := by
  have h := foldl_range_pointwise
    (fun gy y => (List.range size.width).foldl (fun gz z =>
        if orePassCond noise3 config chunkPos x y z then
          setCell gz x y z config.id else gz) gy)
    (fun i x0 y0 z0 => x0 = x ∧ y0 = i ∧ z0 < size.width ∧
      orePassCond noise3 config chunkPos x i z0)
    (fun _ _ _ _ _ => config.id)
    (by
      intro g i x0 y0 z0 hP
      dsimp only
      rw [orePass_z_get, if_pos ⟨hP.1, hP.2.1, hP.2.2.1, hP.2.2.2⟩])
    (by
      intro g i x0 y0 z0 hP
      dsimp only
      rw [orePass_z_get, if_neg hP])
    m g x' y' z'
  by_cases hmem : x' = x ∧ y' < m ∧ z' < size.width ∧
      orePassCond noise3 config chunkPos x y' z'
  · obtain ⟨hx, hy, hz, hc⟩ := hmem
    rw [if_pos ⟨hx, hy, hz, hc⟩]
    exact h.2 y' hy ⟨hx, rfl, hz, hc⟩ (fun j _ hPj => hPj.2.1.symm)
  · rw [if_neg hmem]
    refine h.1 ?_
    intro i hi hPi
    obtain ⟨hx, hy, hz, hc⟩ := hPi
    subst hy
    exact hmem ⟨hx, hi, hz, hc⟩

theorem orePass_get (noise3 : ℚ → ℚ → ℚ → ℚ) (config : OreEntry)
    (size : WorldSize) (chunkPos : Vec3) (input : Grid) (x y z : Nat) :
    orePass noise3 config size chunkPos input x y z =
      if x < size.width ∧ y < size.height ∧ z < size.width ∧
          orePassCond noise3 config chunkPos x y z then
        config.id
      else input x y z := by
  have h := foldl_range_pointwise
    (fun gx x => (List.range size.height).foldl (fun gy y =>
        (List.range size.width).foldl (fun gz z =>
          if orePassCond noise3 config chunkPos x y z then
            setCell gz x y z config.id else gz) gy) gx)
    (fun i x0 y0 z0 => x0 = i ∧ y0 < size.height ∧ z0 < size.width ∧
      orePassCond noise3 config chunkPos i y0 z0)
    (fun _ _ _ _ _ => config.id)
    (by
      intro g i x0 y0 z0 hP
      dsimp only
      rw [orePass_y_get, if_pos ⟨hP.1, hP.2.1, hP.2.2.1, hP.2.2.2⟩])
    (by
      intro g i x0 y0 z0 hP
      dsimp only
      rw [orePass_y_get, if_neg hP])
    size.width input x y z
  unfold orePass
  by_cases hmem : x < size.width ∧ y < size.height ∧ z < size.width ∧
      orePassCond noise3 config chunkPos x y z
  · obtain ⟨hx, hy, hz, hc⟩ := hmem
    rw [if_pos ⟨hx, hy, hz, hc⟩]
    exact h.2 x hx ⟨rfl, hy, hz, hc⟩ (fun j _ hPj => hPj.1.symm)
  · rw [if_neg hmem]
    refine h.1 ?_
    intro i hi hPi
    obtain ⟨hx, hy, hz, hc⟩ := hPi
    subst hx
    exact hmem ⟨hi, hy, hz, hc⟩

theorem getLast?_cons_of_ne_nil {α : Type} (a : α) {l : List α} (h : l ≠ []) :
    (a :: l).getLast? = l.getLast? := by
  cases l with
  | nil => exact absurd rfl h
  | cons b t => exact List.getLast?_cons_cons

theorem generateResources_get (ctx : GenCtx) (oreConfig : List OreEntry)
    (input : Grid) (size : WorldSize) (chunkPos : Vec3) (x y z : Nat)
    (hx : x < size.width) (hy : y < size.height) (hz : z < size.width) :
    generateResources ctx oreConfig input size chunkPos x y z =
      ((oreConfig.filter
          (fun c => decide (orePassCond ctx.noise3 c chunkPos x y z))).getLast?).elim
        (input x y z) (fun c => c.id) := by
  induction oreConfig generalizing input with
  | nil => simp [generateResources]
  | cons c rest ih =>
    have hstep : generateResources ctx (c :: rest) input size chunkPos =
        generateResources ctx rest (orePass ctx.noise3 c size chunkPos input) size chunkPos := by
      simp [generateResources]
    rw [hstep, ih]
    have hv : orePass ctx.noise3 c size chunkPos input x y z =
        if orePassCond ctx.noise3 c chunkPos x y z then c.id else input x y z := by
      rw [orePass_get]
      by_cases hc : orePassCond ctx.noise3 c chunkPos x y z
      · rw [if_pos ⟨hx, hy, hz, hc⟩, if_pos hc]
      · rw [if_neg, if_neg hc]
        intro h
        exact hc h.2.2.2
    by_cases hc : orePassCond ctx.noise3 c chunkPos x y z
    · have hfilter : (c :: rest).filter
          (fun c => decide (orePassCond ctx.noise3 c chunkPos x y z)) =
          c :: rest.filter (fun c => decide (orePassCond ctx.noise3 c chunkPos x y z)) := by
        simp [List.filter_cons, hc]
      rw [hfilter]
      rcases hrest : rest.filter
          (fun c => decide (orePassCond ctx.noise3 c chunkPos x y z)) with _ | ⟨b, t⟩
      · simp [hv, hc]
      · rw [getLast?_cons_of_ne_nil c (by simp)]
        cases hL : (b :: t).getLast? with
        | none => simp at hL
        | some w => simp [hL]
    · have hfilter : (c :: rest).filter
          (fun c => decide (orePassCond ctx.noise3 c chunkPos x y z)) =
          rest.filter (fun c => decide (orePassCond ctx.noise3 c chunkPos x y z)) := by
        simp [List.filter_cons, hc]
      rw [hfilter, hv, if_neg hc]

/-- Claim C8: after the resource stage, each in-bounds cell holds the block
identifier of the last resource in configuration order whose 3D noise
sample at the scaled world coordinate strictly exceeds that resource's
scarcity threshold, or the cell's input value when no configured resource's
sample passes. -/
theorem resources_last_passing_config_wins (ctx : GenCtx)
    (oreConfig : List OreEntry) (input : Grid) (size : WorldSize)
    (chunkPos : Vec3) (x y z : Nat)
    (hx : x < size.width) (hy : y < size.height) (hz : z < size.width) :
    generateResources ctx oreConfig input size chunkPos x y z =
      ((oreConfig.filter
          (fun c => decide (orePassCond ctx.noise3 c chunkPos x y z))).getLast?).elim
        (input x y z) (fun c => c.id) :=
  generateResources_get ctx oreConfig input size chunkPos x y z hx hy hz

theorem terrain_y_get (x z : Nat) (h : Nat) (nb ns : ℚ) (m : Nat) (g : Grid)
    (x' y' z' : Nat) :
    ((List.range m).foldl (fun gy y =>
        setCell gy x y z (terrainCellVal (gy x y z) h nb ns y)) g) x' y' z' =
      if x' = x ∧ y' < m ∧ z' = z then
        terrainCellVal (g x' y' z') h nb ns y'
      else g x' y' z' := by
  have hgen := foldl_range_pointwise
    (fun gy y => setCell gy x y z (terrainCellVal (gy x y z) h nb ns y))
    (fun i x0 y0 z0 => x0 = x ∧ y0 = i ∧ z0 = z)
    (fun i x0 y0 z0 prev => terrainCellVal prev h nb ns i)
    (by
      intro g i x0 y0 z0 hP
      obtain ⟨hx, hy, hz⟩ := hP
      subst hx; subst hy; subst hz
      simp [setCell_get])
    (by
      intro g i x0 y0 z0 hP
      dsimp only
      rw [setCell_get, if_neg hP])
    m g x' y' z'
  by_cases hmem : x' = x ∧ y' < m ∧ z' = z
  · obtain ⟨hx, hy, hz⟩ := hmem
    rw [if_pos ⟨hx, hy, hz⟩]
    exact hgen.2 y' hy ⟨hx, rfl, hz⟩ (fun j _ hPj => hPj.2.1.symm)
  · rw [if_neg hmem]
    refine hgen.1 ?_
    intro i hi hPi
    obtain ⟨hx, hy, hz⟩ := hPi
    subst hy
    exact hmem ⟨hx, hi, hz⟩

theorem terrain_z_get (ctx : GenCtx) (size : WorldSize) (params : WorldParams)
    (chunkPos : Vec3) (x : Nat) (m : Nat) (g : Grid) (x' y' z' : Nat) :
    ((List.range m).foldl (fun gz z =>
        let h := heightAt ctx.noiseTerrain size params chunkPos x z
        let ns := surfaceAt ctx.noiseTerrain params x z
        let nb := bedrockAt ctx.noiseTerrain params x z
        (List.range size.height).foldl (fun gy y =>
          setCell gy x y z (terrainCellVal (gy x y z) h nb ns y)) gz) g) x' y' z' =
      if x' = x ∧ y' < size.height ∧ z' < m then
        terrainCellVal (g x' y' z')
          (heightAt ctx.noiseTerrain size params chunkPos x z')
          (bedrockAt ctx.noiseTerrain params x z')
          (surfaceAt ctx.noiseTerrain params x z') y'
      else g x' y' z' := by
  have hgen := foldl_range_pointwise
    (fun gz z =>
      let h := heightAt ctx.noiseTerrain size params chunkPos x z
      let ns := surfaceAt ctx.noiseTerrain params x z
      let nb := bedrockAt ctx.noiseTerrain params x z
      (List.range size.height).foldl (fun gy y =>
        setCell gy x y z (terrainCellVal (gy x y z) h nb ns y)) gz)
    (fun i x0 y0 z0 => x0 = x ∧ y0 < size.height ∧ z0 = i)
    (fun i x0 y0 z0 prev => terrainCellVal prev
      (heightAt ctx.noiseTerrain size params chunkPos x i)
      (bedrockAt ctx.noiseTerrain params x i)
      (surfaceAt ctx.noiseTerrain params x i) y0)
    (by
      intro g i x0 y0 z0 hP
      dsimp only
      rw [terrain_y_get, if_pos ⟨hP.1, hP.2.1, hP.2.2⟩])
    (by
      intro g i x0 y0 z0 hP
      dsimp only
      rw [terrain_y_get, if_neg hP])
    m g x' y' z'
  by_cases hmem : x' = x ∧ y' < size.height ∧ z' < m
  · obtain ⟨hx, hy, hz⟩ := hmem
    rw [if_pos ⟨hx, hy, hz⟩]
    exact hgen.2 z' hz ⟨hx, hy, rfl⟩ (fun j _ hPj => hPj.2.2.symm)
  · rw [if_neg hmem]
    refine hgen.1 ?_
    intro i hi hPi
    obtain ⟨hx, hy, hz⟩ := hPi
    subst hz
    exact hmem ⟨hx, hy, hi⟩

theorem generateTerrain_get (ctx : GenCtx) (input : Grid) (size : WorldSize)
    (params : WorldParams) (chunkPos : Vec3) (x y z : Nat) :
    generateTerrain ctx input size params chunkPos x y z =
      if x < size.width ∧ y < size.height ∧ z < size.width then
        terrainCellVal (input x y z)
          (heightAt ctx.noiseTerrain size params chunkPos x z)
          (bedrockAt ctx.noiseTerrain params x z)
          (surfaceAt ctx.noiseTerrain params x z) y
      else input x y z := by
  have hgen := foldl_range_pointwise
    (fun gx x =>
      (List.range size.width).foldl (fun gz z =>
        let h := heightAt ctx.noiseTerrain size params chunkPos x z
        let ns := surfaceAt ctx.noiseTerrain params x z
        let nb := bedrockAt ctx.noiseTerrain params x z
        (List.range size.height).foldl (fun gy y =>
          setCell gy x y z (terrainCellVal (gy x y z) h nb ns y)) gz) gx)
    (fun i x0 y0 z0 => x0 = i ∧ y0 < size.height ∧ z0 < size.width)
    (fun i x0 y0 z0 prev => terrainCellVal prev
      (heightAt ctx.noiseTerrain size params chunkPos i z0)
      (bedrockAt ctx.noiseTerrain params i z0)
      (surfaceAt ctx.noiseTerrain params i z0) y0)
    (by
      intro g i x0 y0 z0 hP
      dsimp only
      rw [terrain_z_get, if_pos ⟨hP.1, hP.2.1, hP.2.2⟩])
    (by
      intro g i x0 y0 z0 hP
      dsimp only
      rw [terrain_z_get, if_neg hP])
    size.width input x y z
  unfold generateTerrain
  by_cases hmem : x < size.width ∧ y < size.height ∧ z < size.width
  · obtain ⟨hx, hy, hz⟩ := hmem
    rw [if_pos ⟨hx, hy, hz⟩]
    exact hgen.2 x hx ⟨rfl, hy, hz⟩ (fun j _ hPj => hPj.1.symm)
  · rw [if_neg hmem]
    refine hgen.1 ?_
    intro i hi hPi
    obtain ⟨hx, hy, hz⟩ := hPi
    subst hx
    exact hmem ⟨hi, hy, hz⟩

theorem jsClamp_lt (v : ℤ) (height : Nat) (hh : 0 < height) :
    jsClamp v height < height := by
  unfold jsClamp
  omega

theorem lt_of_lt_jsClamp (v : ℤ) (height y : Nat) (hy : y < jsClamp v height) :
    y < height := by
  unfold jsClamp at hy
  omega

theorem terrainCellVal_ne_air_of_le (prev : BlockID) (h : Nat) (nb ns : ℚ)
    (y : Nat) (hy : y ≤ h) : terrainCellVal prev h nb ns y ≠ BlockID.Air := by
  unfold terrainCellVal
  rcases Nat.lt_or_ge y h with hlt | hge
  · rw [if_pos hlt]
    split_ifs with h1 h2 h3 <;> simp_all
  · have heq : y = h := Nat.le_antisymm hy hge
    rw [if_neg (by omega), if_pos heq]
    simp

theorem terrainCellVal_of_gt (prev : BlockID) (h : Nat) (nb ns : ℚ)
    (y : Nat) (hy : h < y) : terrainCellVal prev h nb ns y = BlockID.Air := by
  unfold terrainCellVal
  rw [if_neg (by omega), if_neg (by omega)]

theorem terrainCellVal_at_h (prev : BlockID) (h : Nat) (nb ns : ℚ) :
    terrainCellVal prev h nb ns h = BlockID.Grass := by
  unfold terrainCellVal
  rw [if_neg (by omega), if_pos rfl]

/-- Claim C2: after the terrain stage, every in-bounds column has exactly
one surface index h below the vertical extent with all cells up to h
non-Air, all cells strictly above h Air, and the cell at h Grass. -/
theorem terrain_unique_surface (ctx : GenCtx) (input : Grid) (size : WorldSize)
    (params : WorldParams) (chunkPos : Vec3) (x z : Nat)
    (hh : 0 < size.height) (hx : x < size.width) (hz : z < size.width) :
    ∃! h : Nat, h < size.height ∧
      (∀ y, y ≤ h → generateTerrain ctx input size params chunkPos x y z ≠ BlockID.Air) ∧
      (∀ y, h < y → y < size.height →
        generateTerrain ctx input size params chunkPos x y z = BlockID.Air) ∧
      generateTerrain ctx input size params chunkPos x h z = BlockID.Grass := by
  set H := heightAt ctx.noiseTerrain size params chunkPos x z with hH
  have hHlt : H < size.height := jsClamp_lt _ _ hh
  have hcell : ∀ y, y < size.height →
      generateTerrain ctx input size params chunkPos x y z =
        terrainCellVal (input x y z) H
          (bedrockAt ctx.noiseTerrain params x z)
          (surfaceAt ctx.noiseTerrain params x z) y := by
    intro y hy
    rw [generateTerrain_get, if_pos ⟨hx, hy, hz⟩]
  refine ⟨H, ⟨hHlt, ?_, ?_, ?_⟩, ?_⟩
  · intro y hy
    rw [hcell y (lt_of_le_of_lt hy hHlt)]
    exact terrainCellVal_ne_air_of_le _ _ _ _ _ hy
  · intro y hy hylt
    rw [hcell y hylt]
    exact terrainCellVal_of_gt _ _ _ _ _ hy
  · rw [hcell H hHlt]
    exact terrainCellVal_at_h _ _ _ _
  · intro h' ⟨hh'lt, hbelow, habove, hgrass⟩
    by_contra hne
    rcases Nat.lt_or_ge h' H with hlt | hge
    · have := habove H hlt hHlt
      rw [hcell H hHlt, terrainCellVal_at_h] at this
      exact absurd this (by simp)
    · have hgt : H < h' := lt_of_le_of_ne hge (fun a => hne a.symm)
      rw [hcell h' hh'lt, terrainCellVal_of_gt _ _ _ _ _ hgt] at hgrass
      exact absurd hgrass (by simp)

/-- Witness for claim C2 at a concrete configuration: width 1, height 2,
flat zero noise, terrain offset 0, so the surface resolves at height 0. -/
theorem terrain_unique_surface_witness :
    ∃! h : Nat, h < (⟨1, 2⟩ : WorldSize).height ∧
      (∀ y, y ≤ h → generateTerrain zeroCtx initEmptyChunk ⟨1, 2⟩
          ⟨⟨1, 0, 0⟩, ⟨0, 0⟩, ⟨0, 0⟩, ⟨0, ⟨1, 1⟩, ⟨0, ⟨0, 0⟩⟩⟩⟩ ⟨0, 0, 0⟩ 0 y 0 ≠
          BlockID.Air) ∧
      (∀ y, h < y → y < (⟨1, 2⟩ : WorldSize).height →
        generateTerrain zeroCtx initEmptyChunk ⟨1, 2⟩
          ⟨⟨1, 0, 0⟩, ⟨0, 0⟩, ⟨0, 0⟩, ⟨0, ⟨1, 1⟩, ⟨0, ⟨0, 0⟩⟩⟩⟩ ⟨0, 0, 0⟩ 0 y 0 =
          BlockID.Air) ∧
      generateTerrain zeroCtx initEmptyChunk ⟨1, 2⟩
        ⟨⟨1, 0, 0⟩, ⟨0, 0⟩, ⟨0, 0⟩, ⟨0, ⟨1, 1⟩, ⟨0, ⟨0, 0⟩⟩⟩⟩ ⟨0, 0, 0⟩ 0 h 0 =
        BlockID.Grass :=
  terrain_unique_surface zeroCtx initEmptyChunk ⟨1, 2⟩
    ⟨⟨1, 0, 0⟩, ⟨0, 0⟩, ⟨0, 0⟩, ⟨0, ⟨1, 1⟩, ⟨0, ⟨0, 0⟩⟩⟩⟩ ⟨0, 0, 0⟩ 0 0
    (by decide) (by decide) (by decide)

unseal Rat.add Rat.mul Rat.sub Rat.inv in
/-- Counterexample to claim C3 as stated: with zero noise, terrain offset 0
and magnitude 0 the column height is 0, while the bedrock offset is 2, so
the cell at y = 0 satisfies y < numBedrockBlocks yet the terrain stage
leaves Grass there, not Bedrock (the bedrock branch only runs for
y < height of the column). -/
theorem terrain_bedrock_floor_cex :
    (0 : ℚ) < bedrockAt zeroCtx.noiseTerrain
        ⟨⟨1, 0, 0⟩, ⟨0, 0⟩, ⟨2, 0⟩, ⟨0, ⟨1, 1⟩, ⟨0, ⟨0, 0⟩⟩⟩⟩ 0 0 ∧
    generateTerrain zeroCtx initEmptyChunk ⟨1, 3⟩
      ⟨⟨1, 0, 0⟩, ⟨0, 0⟩, ⟨2, 0⟩, ⟨0, ⟨1, 1⟩, ⟨0, ⟨0, 0⟩⟩⟩⟩ ⟨0, 0, 0⟩ 0 0 0 =
      BlockID.Grass ∧
    ¬ generateTerrain zeroCtx initEmptyChunk ⟨1, 3⟩
      ⟨⟨1, 0, 0⟩, ⟨0, 0⟩, ⟨2, 0⟩, ⟨0, ⟨1, 1⟩, ⟨0, ⟨0, 0⟩⟩⟩⟩ ⟨0, 0, 0⟩ 0 0 0 =
      BlockID.Bedrock := by
  decide

/-- Claim C3 amended: after the terrain stage, every in-bounds cell lying
both below the column's bedrock thickness and below the column's surface
height is Bedrock (the thickness alone does not suffice: the bedrock branch
only runs for y below the column height). -/
theorem terrain_bedrock_floor (ctx : GenCtx) (input : Grid) (size : WorldSize)
    (params : WorldParams) (chunkPos : Vec3) (x y z : Nat)
    (hx : x < size.width) (hz : z < size.width)
    (hyh : y < heightAt ctx.noiseTerrain size params chunkPos x z)
    (hynb : (y : ℚ) < bedrockAt ctx.noiseTerrain params x z) :
    generateTerrain ctx input size params chunkPos x y z = BlockID.Bedrock := by
  have hy : y < size.height := lt_of_lt_jsClamp _ _ _ hyh
  rw [generateTerrain_get, if_pos ⟨hx, hy, hz⟩]
  unfold terrainCellVal
  rw [if_pos hyh, if_pos hynb]

unseal Rat.add Rat.mul Rat.sub Rat.inv in
/-- Witness for the amended claim C3: height 4, terrain offset 1 gives a
column height of 3; bedrock offset 2 makes the cell at y = 1 Bedrock. -/
theorem terrain_bedrock_floor_witness :
    generateTerrain zeroCtx initEmptyChunk ⟨1, 4⟩
      ⟨⟨1, 1, 0⟩, ⟨0, 0⟩, ⟨2, 0⟩, ⟨0, ⟨1, 1⟩, ⟨0, ⟨0, 0⟩⟩⟩⟩ ⟨0, 0, 0⟩ 0 1 0 =
      BlockID.Bedrock :=
  terrain_bedrock_floor zeroCtx initEmptyChunk ⟨1, 4⟩
    ⟨⟨1, 1, 0⟩, ⟨0, 0⟩, ⟨2, 0⟩, ⟨0, ⟨1, 1⟩, ⟨0, ⟨0, 0⟩⟩⟩⟩ ⟨0, 0, 0⟩ 0 1 0
    (by decide) (by decide) (by decide) (by decide)

/-- Claim C4: every in-bounds cell that still holds a resource block
identifier after the terrain stage lies in the band from the column's
bedrock thickness (inclusive) up to the column height minus the surface
depth (exclusive). -/
theorem terrain_resource_band (ctx : GenCtx) (input : Grid) (size : WorldSize)
    (params : WorldParams) (chunkPos : Vec3) (x y z : Nat) (n : Nat)
    (hx : x < size.width) (hy : y < size.height) (hz : z < size.width)
    (hres : generateTerrain ctx input size params chunkPos x y z =
      BlockID.Resource n) :
    bedrockAt ctx.noiseTerrain params x z ≤ (y : ℚ) ∧
    (y : ℚ) < (heightAt ctx.noiseTerrain size params chunkPos x z : ℚ) -
      surfaceAt ctx.noiseTerrain params x z := by
  rw [generateTerrain_get, if_pos ⟨hx, hy, hz⟩] at hres
  unfold terrainCellVal at hres
  by_cases h1 : y < heightAt ctx.noiseTerrain size params chunkPos x z
  · rw [if_pos h1] at hres
    by_cases h2 : (y : ℚ) < bedrockAt ctx.noiseTerrain params x z
    · rw [if_pos h2] at hres
      exact absurd hres (by simp)
    · rw [if_neg h2] at hres
      by_cases h3 : (y : ℚ) < (heightAt ctx.noiseTerrain size params chunkPos x z : ℚ) -
          surfaceAt ctx.noiseTerrain params x z
      · exact ⟨le_of_not_lt h2, h3⟩
      · rw [if_neg h3] at hres
        exact absurd hres (by simp)
  · rw [if_neg h1] at hres
    by_cases h5 : y = heightAt ctx.noiseTerrain size params chunkPos x z
    · rw [if_pos h5] at hres
      exact absurd hres (by simp)
    · rw [if_neg h5] at hres
      exact absurd hres (by simp)

unseal Rat.add Rat.mul Rat.sub Rat.inv in
/-- Witness for claim C4: an input grid holding a resource everywhere;
with column height 3 and zero bedrock and surface depths, the surviving
resource cell at y = 1 lies inside the band. -/
theorem terrain_resource_band_witness :
    bedrockAt zeroCtx.noiseTerrain
      ⟨⟨1, 1, 0⟩, ⟨0, 0⟩, ⟨0, 0⟩, ⟨0, ⟨1, 1⟩, ⟨0, ⟨0, 0⟩⟩⟩⟩ 0 0 ≤ (1 : ℚ) ∧
    ((1 : Nat) : ℚ) < (heightAt zeroCtx.noiseTerrain ⟨1, 4⟩
      ⟨⟨1, 1, 0⟩, ⟨0, 0⟩, ⟨0, 0⟩, ⟨0, ⟨1, 1⟩, ⟨0, ⟨0, 0⟩⟩⟩⟩ ⟨0, 0, 0⟩ 0 0 : ℚ) -
      surfaceAt zeroCtx.noiseTerrain
        ⟨⟨1, 1, 0⟩, ⟨0, 0⟩, ⟨0, 0⟩, ⟨0, ⟨1, 1⟩, ⟨0, ⟨0, 0⟩⟩⟩⟩ 0 0 :=
  terrain_resource_band zeroCtx (fun _ _ _ => BlockID.Resource 0) ⟨1, 4⟩
    ⟨⟨1, 1, 0⟩, ⟨0, 0⟩, ⟨0, 0⟩, ⟨0, ⟨1, 1⟩, ⟨0, ⟨0, 0⟩⟩⟩⟩ ⟨0, 0, 0⟩ 0 1 0 0
    (by decide) (by decide) (by decide) (by decide)

unseal Rat.add Rat.mul Rat.sub Rat.inv in
/-- Witness for claim C8: two resources whose thresholds both pass at the
cell; the later-listed one wins. -/
theorem resources_last_passing_config_wins_witness :
    generateResources zeroCtx
      [⟨BlockID.Resource 0, ⟨1, 1, 1⟩, -1⟩, ⟨BlockID.Resource 1, ⟨1, 1, 1⟩, -1⟩]
      initEmptyChunk ⟨1, 1⟩ ⟨0, 0, 0⟩ 0 0 0 =
      (([⟨BlockID.Resource 0, ⟨1, 1, 1⟩, -1⟩,
          (⟨BlockID.Resource 1, ⟨1, 1, 1⟩, -1⟩ : OreEntry)].filter
          (fun c => decide (orePassCond zeroCtx.noise3 c ⟨0, 0, 0⟩ 0 0 0))).getLast?).elim
        (initEmptyChunk 0 0 0) (fun c => c.id) :=
  resources_last_passing_config_wins zeroCtx
    [⟨BlockID.Resource 0, ⟨1, 1, 1⟩, -1⟩, ⟨BlockID.Resource 1, ⟨1, 1, 1⟩, -1⟩]
    initEmptyChunk ⟨1, 1⟩ ⟨0, 0, 0⟩ 0 0 0 (by decide) (by decide) (by decide)

/-- Claim C5: chunk generation is a pure function of the seed-derived
generation context, the resource configuration, the world size, the world
parameters and the chunk origin; two calls on the same inputs return equal
grids. -/
theorem generateChunk_deterministic (ctx : GenCtx) (oreConfig : List OreEntry)
    (size : WorldSize) (params : WorldParams) (x z : ℚ)
    (r1 r2 : Except Unit Grid)
    (h1 : generateChunk ctx oreConfig size params x z = r1)
    (h2 : generateChunk ctx oreConfig size params x z = r2) : r1 = r2 :=
  h1 ▸ h2 ▸ rfl

/-- Witness for claim C5 at a concrete configuration. -/
theorem generateChunk_deterministic_witness :
    generateChunk zeroCtx [] ⟨1, 1⟩
      ⟨⟨1, 0, 0⟩, ⟨0, 0⟩, ⟨0, 0⟩, ⟨0, ⟨1, 1⟩, ⟨0, ⟨0, 0⟩⟩⟩⟩ 0 0 =
    generateChunk zeroCtx [] ⟨1, 1⟩
      ⟨⟨1, 0, 0⟩, ⟨0, 0⟩, ⟨0, 0⟩, ⟨0, ⟨1, 1⟩, ⟨0, ⟨0, 0⟩⟩⟩⟩ 0 0 :=
  generateChunk_deterministic zeroCtx [] ⟨1, 1⟩
    ⟨⟨1, 0, 0⟩, ⟨0, 0⟩, ⟨0, 0⟩, ⟨0, ⟨1, 1⟩, ⟨0, ⟨0, 0⟩⟩⟩⟩ 0 0 _ _ rfl rfl

/-! Tree-stage machinery: monadic fold helpers and range membership. -/

theorem foldlM_ok_inv {α : Type} (P : TreeSt → Prop)
    (f : TreeSt → α → Except Unit TreeSt) :
    ∀ (l : List α) (s0 : TreeSt),
      (∀ s a, a ∈ l → P s → ∃ s', f s a = Except.ok s' ∧ P s') →
      P s0 → ∃ s1, l.foldlM f s0 = Except.ok s1 ∧ P s1 := by
  intro l
  induction l with
  | nil =>
    intro s0 _ h0
    exact ⟨s0, by simp [List.foldlM_nil]; rfl, h0⟩
  | cons a t ih =>
    intro s0 hstep h0
    obtain ⟨s', hfa, hPs'⟩ := hstep s0 a (by simp) h0
    obtain ⟨s1, hfold, hPs1⟩ := ih s'
      (fun s b hb hP => hstep s b (by simp [hb]) hP) hPs'
    refine ⟨s1, ?_, hPs1⟩
    simp only [List.foldlM_cons, hfa]
    exact hfold

theorem foldlM_rel {α : Type} (C : TreeSt → TreeSt → Prop)
    (f : TreeSt → α → Except Unit TreeSt)
    (hrefl : ∀ s, C s s)
    (htrans : ∀ a b c, C a b → C b c → C a c) :
    ∀ (l : List α) (s0 s1 : TreeSt),
      (∀ s a s', a ∈ l → f s a = Except.ok s' → C s s') →
      l.foldlM f s0 = Except.ok s1 → C s0 s1 := by
  intro l
  induction l with
  | nil =>
    intro s0 s1 _ hfold
    simp only [List.foldlM_nil] at hfold
    cases hfold
    exact hrefl s0
  | cons a t ih =>
    intro s0 s1 hstep hfold
    simp only [List.foldlM_cons] at hfold
    cases hfa : f s0 a with
    | error e =>
      rw [hfa] at hfold
      exact absurd hfold (by simp [Bind.bind, Except.bind])
    | ok s' =>
      rw [hfa] at hfold
      have hmid : t.foldlM f s' = Except.ok s1 := hfold
      exact htrans s0 s' s1 (hstep s0 a s' (by simp) hfa)
        (ih s' s1 (fun s b sb hb hsb => hstep s b sb (by simp [hb]) hsb) hmid)

theorem foldlM_all_id {α : Type} (f : TreeSt → α → Except Unit TreeSt) :
    ∀ (l : List α) (s : TreeSt),
      (∀ a, a ∈ l → ∀ s0, f s0 a = Except.ok s0) →
      l.foldlM f s = Except.ok s := by
  intro l
  induction l with
  | nil => intro s _; simp [List.foldlM_nil]; rfl
  | cons a t ih =>
    intro s hid
    simp only [List.foldlM_cons, hid a (by simp) s]
    exact ih s (fun b hb s0 => hid b (by simp [hb]) s0)

theorem mem_intsFrom (lo : ℤ) (n : Nat) (i : ℤ) :
    i ∈ intsFrom lo n ↔ lo ≤ i ∧ i < lo + n := by
  unfold intsFrom
  constructor
  · intro h
    rw [List.mem_map] at h
    obtain ⟨j, hj, hje⟩ := h
    rw [List.mem_range] at hj
    omega
  · intro ⟨h1, h2⟩
    rw [List.mem_map]
    refine ⟨(i - lo).toNat, ?_, ?_⟩
    · rw [List.mem_range]
      omega
    · omega

theorem mem_cubeRange (R : ℤ) (d : ℤ) (hd : d ∈ cubeRange R) :
    -R ≤ d ∧ d ≤ R := by
  unfold cubeRange at hd
  rw [mem_intsFrom] at hd
  omega

theorem mem_canopyOffsets (R : ℤ) (d : ℤ × ℤ × ℤ) (hd : d ∈ canopyOffsets R) :
    (-R ≤ d.1 ∧ d.1 ≤ R) ∧ (-R ≤ d.2.1 ∧ d.2.1 ≤ R) ∧
      (-R ≤ d.2.2 ∧ d.2.2 ≤ R) := by
  unfold canopyOffsets at hd
  simp only [List.mem_flatMap, List.mem_map] at hd
  obtain ⟨dx, hdx, dy, hdy, dz, hdz, rfl⟩ := hd
  exact ⟨mem_cubeRange R dx hdx, mem_cubeRange R dy hdy, mem_cubeRange R dz hdz⟩

theorem mem_baseRange (size : WorldSize) (cs : Nat) (b : Nat) :
    b ∈ baseRange size cs ↔ cs ≤ b ∧ b + cs < size.width := by
  unfold baseRange
  simp only [List.mem_map, List.mem_range]
  constructor
  · rintro ⟨j, hj, rfl⟩
    omega
  · intro ⟨h1, h2⟩
    exact ⟨b - cs, by omega, by omega⟩

theorem jsRound_bounds (t : ℚ) (d : ℤ) (h0 : 0 ≤ t) (h1 : t ≤ (d : ℚ)) :
    0 ≤ jsRound t ∧ jsRound t ≤ d := by
  unfold jsRound
  constructor
  · have : (0 : ℚ) ≤ t + 1 / 2 := by linarith
    have hfl := Int.floor_le_floor (α := ℚ) this
    rw [Int.floor_zero] at hfl
    omega
  · have : t + 1 / 2 ≤ (d : ℚ) + 1 / 2 := by linarith
    have hfl := Int.floor_le_floor (α := ℚ) this
    have hdd : ⌊(d : ℚ) + 1 / 2⌋ = d := by
      rw [add_comm, Int.floor_add_int]
      norm_num
    omega

theorem drawSpan_bounds (u : ℚ) (lo hi : Nat) (h0 : 0 ≤ u) (h1 : u ≤ 1)
    (hlh : lo ≤ hi) :
    (lo : ℤ) ≤ drawSpan u lo hi ∧ drawSpan u lo hi ≤ (hi : ℤ) := by
  unfold drawSpan
  have hd : (0 : ℚ) ≤ (hi : ℚ) - (lo : ℚ) := by
    have : (lo : ℚ) ≤ (hi : ℚ) := by exact_mod_cast hlh
    linarith
  have ht0 : (0 : ℚ) ≤ u * ((hi : ℚ) - (lo : ℚ)) := mul_nonneg h0 hd
  have ht1 : u * ((hi : ℚ) - (lo : ℚ)) ≤ (((hi : ℤ) - (lo : ℤ) : ℤ) : ℚ) := by
    push_cast
    nlinarith
  have hb := jsRound_bounds _ _ ht0 ht1
  omega

theorem except_ok_bind {α β : Type} (a : α) (f : α → Except Unit β) :
    (Except.ok a).bind f = f a := rfl

theorem writeY_ok (size : WorldSize) (x : Nat) (i : ℤ) (z : Nat) (b : BlockID)
    (st : TreeSt) (h : 0 ≤ i ∧ i < (size.height : ℤ)) :
    writeY size x i z b st =
      Except.ok { st with g := setCell st.g x i.toNat z b } := by
  unfold writeY
  rw [if_pos h]

theorem writeY_eq_ok (size : WorldSize) (x : Nat) (i : ℤ) (z : Nat)
    (b : BlockID) (st st' : TreeSt) (h : writeY size x i z b st = Except.ok st') :
    0 ≤ i ∧ i < (size.height : ℤ) ∧ st'.g = setCell st.g x i.toNat z b ∧
      st'.k = st.k := by
  unfold writeY at h
  by_cases hb : 0 ≤ i ∧ i < (size.height : ℤ)
  · rw [if_pos hb] at h
    cases h
    exact ⟨hb.1, hb.2, rfl, rfl⟩
  · rw [if_neg hb] at h
    exact Except.noConfusion h

theorem canopyCheck_ok_false (size : WorldSize) (g : Grid) (a b c : ℤ)
    (h : canopyCheck size g a b c = Except.ok false) :
    0 ≤ a ∧ a < (size.width : ℤ) ∧ 0 ≤ b ∧ b < (size.height : ℤ) ∧
      0 ≤ c ∧ c < (size.width : ℤ) ∧ g a.toNat b.toNat c.toNat = BlockID.Air := by
  unfold canopyCheck at h
  by_cases h1 : 0 ≤ a ∧ a < (size.width : ℤ) ∧ 0 ≤ b ∧ b < (size.height : ℤ)
  · rw [if_pos h1] at h
    by_cases h2 : 0 ≤ c ∧ c < (size.width : ℤ)
    · rw [if_pos h2] at h
      have hdec : decide (¬ g a.toNat b.toNat c.toNat = BlockID.Air) = false :=
        Except.ok.inj h
      have hair : g a.toNat b.toNat c.toNat = BlockID.Air :=
        not_not.mp (of_decide_eq_false hdec)
      exact ⟨h1.1, h1.2.1, h1.2.2.1, h1.2.2.2, h2.1, h2.2, hair⟩
    · rw [if_neg h2] at h
      exact absurd (Except.ok.inj h) (by simp)
  · rw [if_neg h1] at h
    exact Except.noConfusion h

theorem canopyCheck_ok_of_bounds (size : WorldSize) (g : Grid) (a b c : ℤ)
    (h1 : 0 ≤ a ∧ a < (size.width : ℤ) ∧ 0 ≤ b ∧ b < (size.height : ℤ)) :
    ∃ r, canopyCheck size g a b c = Except.ok r := by
  unfold canopyCheck
  rw [if_pos h1]
  split_ifs <;> exact ⟨_, rfl⟩

theorem canopyCell_change (ctx : GenCtx) (size : WorldSize)
    (params : WorldParams) (bX topY bZ R : ℤ) (st : TreeSt) (d : ℤ × ℤ × ℤ)
    (st' : TreeSt)
    (h : canopyCell ctx size params bX topY bZ R st d = Except.ok st') :
    ∀ x0 y0 z0, st'.g x0 y0 z0 ≠ st.g x0 y0 z0 →
      st'.g x0 y0 z0 = BlockID.Leaves ∧ st.g x0 y0 z0 = BlockID.Air ∧
      (x0 : ℤ) = bX + d.1 ∧ (y0 : ℤ) = topY + d.2.1 ∧ (z0 : ℤ) = bZ + d.2.2 ∧
      d.1 * d.1 + d.2.1 * d.2.1 + d.2.2 * d.2.2 ≤ R * R := by
  unfold canopyCell at h
  by_cases hrad : d.1 * d.1 + d.2.1 * d.2.1 + d.2.2 * d.2.2 > R * R
  · rw [if_pos hrad] at h
    cases h
    intro x0 y0 z0 hch
    exact absurd rfl hch
  · rw [if_neg hrad] at h
    cases hc : canopyCheck size st.g (bX + d.1) (topY + d.2.1) (bZ + d.2.2) with
    | error e => rw [hc] at h; exact Except.noConfusion h
    | ok skip =>
      rw [hc, except_ok_bind] at h
      cases skip with
      | true =>
        rw [if_pos rfl] at h
        cases h
        intro x0 y0 z0 hch
        exact absurd rfl hch
      | false =>
        rw [if_neg (by simp)] at h
        obtain ⟨ha1, ha2, hb1, hb2, hc1, hc2, hair⟩ :=
          canopyCheck_ok_false size st.g _ _ _ hc
        by_cases hu : ctx.rand st.k > params.trees.canopy.density
        · rw [if_pos hu] at h
          cases h
          intro x0 y0 z0 hch
          simp only [setCell_get] at hch ⊢
          by_cases ht : x0 = (bX + d.1).toNat ∧ y0 = (topY + d.2.1).toNat ∧
              z0 = (bZ + d.2.2).toNat
          · obtain ⟨htx, hty, htz⟩ := ht
            subst htx; subst hty; subst htz
            refine ⟨by rw [if_pos ⟨rfl, rfl, rfl⟩], hair, ?_, ?_, ?_,
              le_of_not_lt hrad⟩
            · rw [Int.toNat_of_nonneg ha1]
            · rw [Int.toNat_of_nonneg hb1]
            · rw [Int.toNat_of_nonneg hc1]
          · rw [if_neg ht] at hch
            exact absurd rfl hch
        · rw [if_neg hu] at h
          cases h
          intro x0 y0 z0 hch
          exact absurd rfl hch

theorem plantChange_refl (baseX baseZ y : Nat) (s : TreeSt) :
    plantChange baseX baseZ y s s := by
  intro x0 y0 z0 hch
  exact absurd rfl hch

theorem plantChange_trans (baseX baseZ y : Nat) (s t u : TreeSt)
    (h1 : plantChange baseX baseZ y s t) (h2 : plantChange baseX baseZ y t u) :
    plantChange baseX baseZ y s u := by
  intro x0 y0 z0 hch
  by_cases hts : t.g x0 y0 z0 = s.g x0 y0 z0
  · rcases h2 x0 y0 z0 (by rw [hts]; exact hch) with hlog | hleaf
    · exact Or.inl hlog
    · exact Or.inr ⟨hleaf.1, hts ▸ hleaf.2⟩
  · rcases h1 x0 y0 z0 hts with hlog | hleaf
    · by_cases hut : u.g x0 y0 z0 = t.g x0 y0 z0
      · exact Or.inl ⟨hut ▸ hlog.1, hlog.2⟩
      · rcases h2 x0 y0 z0 hut with hlog2 | hleaf2
        · exact Or.inl hlog2
        · rw [hlog.1] at hleaf2
          exact absurd hleaf2.2 (by simp)
    · by_cases hut : u.g x0 y0 z0 = t.g x0 y0 z0
      · exact Or.inr ⟨hut ▸ hleaf.1, hleaf.2⟩
      · rcases h2 x0 y0 z0 hut with hlog2 | hleaf2
        · exact Or.inl hlog2
        · rw [hleaf.1] at hleaf2
          exact absurd hleaf2.2 (by simp)

theorem plantTree_change (ctx : GenCtx) (size : WorldSize)
    (params : WorldParams) (baseX baseZ y : Nat) (st st' : TreeSt)
    (h : plantTree ctx size params baseX baseZ y st = Except.ok st') :
    plantChange baseX baseZ y st st' := by
  simp only [plantTree] at h
  cases htr : (intsFrom ((y : ℤ) + 1)
      ((((y : ℤ) + 1) + drawSpan (ctx.rand st.k) params.trees.trunkHeight.min
        params.trees.trunkHeight.max) - (((y : ℤ)) + 1)).toNat).foldlM
      (fun s i => writeY size baseX i baseZ BlockID.OakLog s)
      (⟨st.g, st.k + 1⟩ : TreeSt) with
  | error e =>
    rw [htr] at h
    exact Except.noConfusion h
  | ok st2 =>
    rw [htr, except_ok_bind] at h
    have htrunk : plantChange baseX baseZ y (⟨st.g, st.k + 1⟩ : TreeSt) st2 := by
      refine foldlM_rel (plantChange baseX baseZ y) _
        (plantChange_refl baseX baseZ y)
        (plantChange_trans baseX baseZ y) _ _ _ ?_ htr
      intro s a s' ha hok
      obtain ⟨ha0, halt, hg, hk⟩ := writeY_eq_ok size baseX a baseZ _ s s' hok
      rw [mem_intsFrom] at ha
      intro x0 y0 z0 hch
      rw [hg, setCell_get] at hch
      by_cases ht : x0 = baseX ∧ y0 = a.toNat ∧ z0 = baseZ
      · refine Or.inl ⟨?_, ht.1, ht.2.2, ?_⟩
        · rw [hg, setCell_get, if_pos ht]
        · omega
      · rw [if_neg ht] at hch
        exact absurd rfl hch
    have hcanopy : plantChange baseX baseZ y (⟨st2.g, st2.k + 1⟩ : TreeSt) st' := by
      refine foldlM_rel (plantChange baseX baseZ y) _
        (plantChange_refl baseX baseZ y)
        (plantChange_trans baseX baseZ y) _ _ _ ?_ h
      intro s a s' _ hok
      intro x0 y0 z0 hch
      rcases canopyCell_change ctx size params (baseX : ℤ) _ (baseZ : ℤ) _
          s a s' hok x0 y0 z0 hch with ⟨hl, hair, _⟩
      exact Or.inr ⟨hl, hair⟩
    have h1 : plantChange baseX baseZ y st (⟨st.g, st.k + 1⟩ : TreeSt) := by
      intro x0 y0 z0 hch
      exact absurd rfl hch
    have h2 : plantChange baseX baseZ y st2 (⟨st2.g, st2.k + 1⟩ : TreeSt) := by
      intro x0 y0 z0 hch
      exact absurd rfl hch
    exact plantChange_trans baseX baseZ y _ _ _
      (plantChange_trans baseX baseZ y _ _ _ h1 htrunk)
      (plantChange_trans baseX baseZ y _ _ _ h2 hcanopy)

theorem plantChange_grass_status (baseX baseZ y : Nat) (s s' : TreeSt)
    (hpc : plantChange baseX baseZ y s s') (x0 y0 z0 : Nat) (hy : y0 ≤ y) :
    (s'.g x0 y0 z0 = BlockID.Grass ↔ s.g x0 y0 z0 = BlockID.Grass) := by
  by_cases hch : s'.g x0 y0 z0 = s.g x0 y0 z0
  · rw [hch]
  · rcases hpc x0 y0 z0 hch with hlog | hleaf
    · omega
    · rw [hleaf.1, hleaf.2]
      simp

theorem plantChange_no_new_grass (baseX baseZ y : Nat) (s s' : TreeSt)
    (hpc : plantChange baseX baseZ y s s') (x0 y0 z0 : Nat)
    (hg : s'.g x0 y0 z0 = BlockID.Grass) : s.g x0 y0 z0 = BlockID.Grass := by
  by_cases hch : s'.g x0 y0 z0 = s.g x0 y0 z0
  · rw [← hch]
    exact hg
  · rcases hpc x0 y0 z0 hch with hlog | hleaf
    · rw [hg] at hlog
      exact absurd hlog.1 (by simp)
    · rw [hg] at hleaf
      exact absurd hleaf.1 (by simp)

theorem except_ok_seq {α β : Type} (a : α) (f : α → Except Unit β) :
    ((Except.ok a : Except Unit α) >>= f) = f a := rfl

theorem except_error_seq {α β : Type} (e : Unit) (f : α → Except Unit β) :
    ((Except.error e : Except Unit α) >>= f) = Except.error e := rfl

theorem scan_filter (ctx : GenCtx) (size : WorldSize) (params : WorldParams)
    (baseX baseZ : Nat) (g0 : Grid) :
    ∀ (ys : List Nat), List.Pairwise (· > ·) ys →
      ∀ (st : TreeSt),
      (∀ y ∈ ys, (st.g baseX y baseZ = BlockID.Grass ↔
        g0 baseX y baseZ = BlockID.Grass)) →
      ys.foldlM (fun s y => if s.g baseX y baseZ = BlockID.Grass
          then plantTree ctx size params baseX baseZ y s else Except.ok s) st =
      (ys.filter (fun y => decide (g0 baseX y baseZ = BlockID.Grass))).foldlM
        (fun s y => plantTree ctx size params baseX baseZ y s) st := by
  intro ys
  induction ys with
  | nil =>
    intro _ st _
    simp
  | cons a t ih =>
    intro hpw st hagree
    have hpwt : List.Pairwise (· > ·) t := (List.pairwise_cons.mp hpw).2
    have hgt : ∀ y ∈ t, a > y := (List.pairwise_cons.mp hpw).1
    by_cases hga : g0 baseX a baseZ = BlockID.Grass
    · have hsta : st.g baseX a baseZ = BlockID.Grass := (hagree a (by simp)).mpr hga
      rw [List.filter_cons_of_pos (by simp [hga])]
      rw [List.foldlM_cons, List.foldlM_cons, if_pos hsta]
      cases hpl : plantTree ctx size params baseX baseZ a st with
      | error e =>
        rw [except_error_seq, except_error_seq]
      | ok s' =>
        rw [except_ok_seq, except_ok_seq]
        refine ih hpwt s' ?_
        intro y hy
        have hle : y ≤ a := le_of_lt (hgt y hy)
        exact (plantChange_grass_status baseX baseZ a st s'
          (plantTree_change ctx size params baseX baseZ a st s' hpl)
          baseX y baseZ hle).trans (hagree y (by simp [hy]))
    · have hsta : ¬ st.g baseX a baseZ = BlockID.Grass :=
        fun hh => hga ((hagree a (by simp)).mp hh)
      rw [List.filter_cons_of_neg (by simp [hga])]
      rw [List.foldlM_cons, if_neg hsta, except_ok_seq]
      exact ih hpwt st (fun y hy => hagree y (by simp [hy]))

/-- Claim C6 amended: the downward scan of a candidate column plants one
tree at every cell of the column that held Grass in the grid as it stood
when the scan began, topmost first (the source does not stop after the
first Grass cell), with each tree based one above its grass cell; in
particular a column with no Grass cell is left untouched.  On a grid
produced by the terrain stage, which has exactly one Grass cell per
column, this reduces to at most one tree per candidate column. -/
theorem scanColumn_plants_per_grass_cell (ctx : GenCtx) (size : WorldSize)
    (params : WorldParams) (baseX baseZ : Nat) (st : TreeSt) :
    scanColumn ctx size params baseX baseZ st =
      (grassList st.g size baseX baseZ).foldlM
        (fun s y => plantTree ctx size params baseX baseZ y s) st := by
  unfold scanColumn grassList
  refine scan_filter ctx size params baseX baseZ st.g _ ?_ st (fun y _ => Iff.rfl)
  rw [List.pairwise_reverse]
  exact List.pairwise_lt_range size.height

unseal Rat.add Rat.mul Rat.sub Rat.inv in
/-- Counterexample to claim C6 as stated: a candidate column with Grass at
heights 4 and 1 (nothing above 4).  The claim allows only the single tree
based at 5 above the topmost Grass, with a drawn trunk height of 1 and a
drawn canopy radius of 0, so the cell at height 2, Air on entry, would
stay Air; the tree stage instead also plants a second trunk there for the
lower Grass cell, because the scan does not stop at the first hit. -/
theorem generateTrees_two_trees_cex :
    ((fun _ y _ => if y = 4 ∨ y = 1 then BlockID.Grass else BlockID.Air : Grid)
      0 4 0 = BlockID.Grass) ∧
    ((fun _ y _ => if y = 4 ∨ y = 1 then BlockID.Grass else BlockID.Air : Grid)
      0 5 0 = BlockID.Air) ∧
    ((fun _ y _ => if y = 4 ∨ y = 1 then BlockID.Grass else BlockID.Air : Grid)
      0 6 0 = BlockID.Air) ∧
    ((fun _ y _ => if y = 4 ∨ y = 1 then BlockID.Grass else BlockID.Air : Grid)
      0 7 0 = BlockID.Air) ∧
    ((fun _ y _ => if y = 4 ∨ y = 1 then BlockID.Grass else BlockID.Air : Grid)
      0 2 0 = BlockID.Air) ∧
    (generateTrees zeroCtx
      ⟨(fun _ y _ => if y = 4 ∨ y = 1 then BlockID.Grass else BlockID.Air), 0⟩
      ⟨1, 8⟩ ⟨⟨1, 0, 0⟩, ⟨0, 0⟩, ⟨0, 0⟩, ⟨1, ⟨1, 1⟩, ⟨1, ⟨0, 0⟩⟩⟩⟩
      ⟨0, 0, 0⟩).isOk = true ∧
    exGet (generateTrees zeroCtx
      ⟨(fun _ y _ => if y = 4 ∨ y = 1 then BlockID.Grass else BlockID.Air), 0⟩
      ⟨1, 8⟩ ⟨⟨1, 0, 0⟩, ⟨0, 0⟩, ⟨0, 0⟩, ⟨1, ⟨1, 1⟩, ⟨1, ⟨0, 0⟩⟩⟩⟩
      ⟨0, 0, 0⟩) 0 5 0 = BlockID.OakLog ∧
    exGet (generateTrees zeroCtx
      ⟨(fun _ y _ => if y = 4 ∨ y = 1 then BlockID.Grass else BlockID.Air), 0⟩
      ⟨1, 8⟩ ⟨⟨1, 0, 0⟩, ⟨0, 0⟩, ⟨0, 0⟩, ⟨1, ⟨1, 1⟩, ⟨1, ⟨0, 0⟩⟩⟩⟩
      ⟨0, 0, 0⟩) 0 2 0 = BlockID.OakLog := by
  decide

/-- Claim C7: when one tree's canopy pass succeeds, every cell it changed
was Air beforehand, holds Leaves afterwards, and lies at an offset
(dx, dy, dz) from the canopy center (baseX, topY, baseZ) with
dx² + dy² + dz² at most R² for the radius R drawn for that tree. -/
theorem canopy_sphere_and_no_overwrite (ctx : GenCtx) (size : WorldSize)
    (params : WorldParams) (bX topY bZ R : ℤ) (st : TreeSt)
    (hok : ((canopyOffsets R).foldlM
      (fun s d => canopyCell ctx size params bX topY bZ R s d) st).isOk = true)
    (x0 y0 z0 : Nat)
    (hch : exGet ((canopyOffsets R).foldlM
        (fun s d => canopyCell ctx size params bX topY bZ R s d) st) x0 y0 z0 ≠
      st.g x0 y0 z0) :
    st.g x0 y0 z0 = BlockID.Air ∧
    exGet ((canopyOffsets R).foldlM
      (fun s d => canopyCell ctx size params bX topY bZ R s d) st) x0 y0 z0 =
      BlockID.Leaves ∧
    ∃ dx dy dz : ℤ, dx * dx + dy * dy + dz * dz ≤ R * R ∧
      (x0 : ℤ) = bX + dx ∧ (y0 : ℤ) = topY + dy ∧ (z0 : ℤ) = bZ + dz := by
  cases hres : (canopyOffsets R).foldlM
      (fun s d => canopyCell ctx size params bX topY bZ R s d) st with
  | error e =>
    rw [hres] at hok
    exact absurd hok (by simp [Except.isOk, Except.toBool])
  | ok st' =>
    simp only [hres, exGet] at hch ⊢
    have hrel := foldlM_rel
      (fun s s' => ∀ x1 y1 z1, s'.g x1 y1 z1 ≠ s.g x1 y1 z1 →
        s.g x1 y1 z1 = BlockID.Air ∧ s'.g x1 y1 z1 = BlockID.Leaves ∧
        ∃ dx dy dz : ℤ, dx * dx + dy * dy + dz * dz ≤ R * R ∧
          (x1 : ℤ) = bX + dx ∧ (y1 : ℤ) = topY + dy ∧ (z1 : ℤ) = bZ + dz)
      (fun s d => canopyCell ctx size params bX topY bZ R s d)
      (by
        intro s x1 y1 z1 hne
        exact absurd rfl hne)
      (by
        intro a b c hab hbc x1 y1 z1 hac
        by_cases hba : b.g x1 y1 z1 = a.g x1 y1 z1
        · obtain ⟨hair, hlv, hd⟩ := hbc x1 y1 z1 (by rw [hba]; exact hac)
          exact ⟨hba ▸ hair, hlv, hd⟩
        · obtain ⟨hair, hlv, hd⟩ := hab x1 y1 z1 hba
          by_cases hcb : c.g x1 y1 z1 = b.g x1 y1 z1
          · exact ⟨hair, hcb ▸ hlv, hd⟩
          · obtain ⟨hair2, hlv2, hd2⟩ := hbc x1 y1 z1 hcb
            rw [hlv] at hair2
            exact absurd hair2 (by simp))
      (canopyOffsets R) st st'
      (by
        intro s d s' _ hok2
        intro x1 y1 z1 hch2
        obtain ⟨hlv, hair, hcx, hcy, hcz, hrad⟩ :=
          canopyCell_change ctx size params bX topY bZ R s d s' hok2 x1 y1 z1 hch2
        exact ⟨hair, hlv, d.1, d.2.1, d.2.2, hrad, hcx, hcy, hcz⟩)
      hres
    exact hrel x0 y0 z0 hch

unseal Rat.add Rat.mul Rat.sub Rat.inv in
/-- Witness for claim C7: radius 1 around center (1, 1, 1) in a 3 by 3 by 3
all-Air grid with density 0 and an RNG stream of ones; the cell below the
center becomes Leaves. -/
theorem canopy_sphere_and_no_overwrite_witness :
    (initEmptyChunk : Grid) 1 0 1 = BlockID.Air ∧
    exGet ((canopyOffsets 1).foldlM
      (fun s d => canopyCell oneRandCtx ⟨3, 3⟩
        ⟨⟨1, 0, 0⟩, ⟨0, 0⟩, ⟨0, 0⟩, ⟨0, ⟨0, 0⟩, ⟨0, ⟨1, 1⟩⟩⟩⟩ 1 1 1 1 s d)
      ⟨initEmptyChunk, 0⟩) 1 0 1 = BlockID.Leaves ∧
    ∃ dx dy dz : ℤ, dx * dx + dy * dy + dz * dz ≤ 1 * 1 ∧
      ((1 : Nat) : ℤ) = 1 + dx ∧ ((0 : Nat) : ℤ) = 1 + dy ∧
      ((1 : Nat) : ℤ) = 1 + dz :=
  canopy_sphere_and_no_overwrite oneRandCtx ⟨3, 3⟩
    ⟨⟨1, 0, 0⟩, ⟨0, 0⟩, ⟨0, 0⟩, ⟨0, ⟨0, 0⟩, ⟨0, ⟨1, 1⟩⟩⟩⟩ 1 1 1 1
    ⟨initEmptyChunk, 0⟩ (by decide) 1 0 1 (by decide)

/-- Claim C9 amended: with tree frequency 0 the tree stage is the identity
(no trunk or leaf is placed and no error occurs), provided every gate noise
sample is strictly below 1, the top of the noise contract's closed range; a
sample exactly equal to 1 defeats the gate because the skip test n < 1 - 0
then fails. -/
theorem generateTrees_frequency_zero (ctx : GenCtx) (st : TreeSt)
    (size : WorldSize) (params : WorldParams) (chunkPos : Vec3)
    (hfreq : params.trees.frequency = 0)
    (hnoise : ∀ a b, ctx.noiseTrees a b < 1) :
    generateTrees ctx st size params chunkPos = Except.ok st := by
  simp only [generateTrees]
  refine foldlM_all_id _ _ _ ?_
  intro baseX _ s
  refine foldlM_all_id _ _ _ ?_
  intro baseZ _ s0
  have hcond : ctx.noiseTrees (chunkPos.x + (baseX : ℚ)) (chunkPos.z + (baseZ : ℚ))
      * (1 / 2) + 1 / 2 < 1 - params.trees.frequency := by
    rw [hfreq]
    have := hnoise (chunkPos.x + (baseX : ℚ)) (chunkPos.z + (baseZ : ℚ))
    linarith
  rw [if_pos hcond]

unseal Rat.add Rat.mul Rat.sub Rat.inv in
/-- Witness for the amended claim C9 at a concrete configuration. -/
theorem generateTrees_frequency_zero_witness :
    generateTrees zeroCtx ⟨initEmptyChunk, 0⟩ ⟨4, 4⟩
      ⟨⟨1, 0, 0⟩, ⟨0, 0⟩, ⟨0, 0⟩, ⟨0, ⟨1, 1⟩, ⟨0, ⟨0, 0⟩⟩⟩⟩ ⟨0, 0, 0⟩ =
      Except.ok ⟨initEmptyChunk, 0⟩ :=
  generateTrees_frequency_zero zeroCtx ⟨initEmptyChunk, 0⟩ ⟨4, 4⟩
    ⟨⟨1, 0, 0⟩, ⟨0, 0⟩, ⟨0, 0⟩, ⟨0, ⟨1, 1⟩, ⟨0, ⟨0, 0⟩⟩⟩⟩ ⟨0, 0, 0⟩ rfl
    (fun a b => by norm_num [zeroCtx])

unseal Rat.add Rat.mul Rat.sub Rat.inv in
/-- Counterexample to claim C9 as stated: the spec's noise contract is the
closed range from -1 to 1, and a gate sample exactly equal to 1 remaps to
n = 1, which is not below the skip threshold 1 - 0, so a tree is planted
even though the frequency is 0: the cell above the grass, Air on entry,
holds OakLog afterwards. -/
theorem generateTrees_frequency_zero_cex :
    ((⟨⟨1, 0, 0⟩, ⟨0, 0⟩, ⟨0, 0⟩, ⟨0, ⟨1, 1⟩, ⟨0, ⟨0, 0⟩⟩⟩⟩ :
      WorldParams).trees.frequency = 0) ∧
    ((fun _ y _ => if y = 0 then BlockID.Grass else BlockID.Air : Grid) 0 1 0 =
      BlockID.Air) ∧
    (generateTrees onesTreesCtx
      ⟨(fun _ y _ => if y = 0 then BlockID.Grass else BlockID.Air), 0⟩ ⟨1, 4⟩
      ⟨⟨1, 0, 0⟩, ⟨0, 0⟩, ⟨0, 0⟩, ⟨0, ⟨1, 1⟩, ⟨0, ⟨0, 0⟩⟩⟩⟩ ⟨0, 0, 0⟩).isOk =
      true ∧
    exGet (generateTrees onesTreesCtx
      ⟨(fun _ y _ => if y = 0 then BlockID.Grass else BlockID.Air), 0⟩ ⟨1, 4⟩
      ⟨⟨1, 0, 0⟩, ⟨0, 0⟩, ⟨0, 0⟩, ⟨0, ⟨1, 1⟩, ⟨0, ⟨0, 0⟩⟩⟩⟩ ⟨0, 0, 0⟩) 0 1 0 =
      BlockID.OakLog := by
  decide

/-- Claim C10: under the documented configuration discipline (canopy size
bounds ordered, uniform draws in the unit interval), the drawn canopy
radius never exceeds the canopy margin, and every horizontal index touched
by a tree write, base plus offset, stays inside the chunk width; only the
vertical index is unguarded. -/
theorem trees_horizontal_bounds (size : WorldSize) (minR maxR : Nat) (u : ℚ)
    (baseX : Nat) (dx : ℤ)
    (h0 : 0 ≤ u) (h1 : u ≤ 1) (hmm : minR ≤ maxR)
    (hbx : baseX ∈ baseRange size maxR)
    (hdx1 : -(drawSpan u minR maxR) ≤ dx) (hdx2 : dx ≤ drawSpan u minR maxR) :
    drawSpan u minR maxR ≤ (maxR : ℤ) ∧
    0 ≤ (baseX : ℤ) + dx ∧ (baseX : ℤ) + dx < (size.width : ℤ) := by
  obtain ⟨hb1, hb2⟩ := (mem_baseRange size maxR baseX).mp hbx
  obtain ⟨hd1, hd2⟩ := drawSpan_bounds u minR maxR h0 h1 hmm
  refine ⟨hd2, ?_, ?_⟩ <;> omega

unseal Rat.add Rat.mul Rat.sub Rat.inv in
/-- Witness for claim C10: width 3, canopy margin 1, base column 1,
offset -1. -/
theorem trees_horizontal_bounds_witness :
    drawSpan (1 / 2) 1 1 ≤ ((1 : Nat) : ℤ) ∧
    0 ≤ ((1 : Nat) : ℤ) + (-1) ∧
    ((1 : Nat) : ℤ) + (-1) < (((⟨3, 3⟩ : WorldSize)).width : ℤ) :=
  trees_horizontal_bounds ⟨3, 3⟩ 1 1 (1 / 2) 1 (-1) (by norm_num) (by norm_num)
    (by decide) (by decide) (by decide) (by decide)

theorem mem_of_getLast?_eq_some {α : Type} {l : List α} {c : α}
    (h : l.getLast? = some c) : c ∈ l := by
  cases l with
  | nil => exact absurd h (by simp)
  | cons a t =>
    rw [List.getLast?_eq_getLast (a :: t) (by simp)] at h
    have := Option.some.inj h
    rw [← this]
    exact List.getLast_mem _

theorem generateResources_out (ctx : GenCtx) (oreConfig : List OreEntry)
    (input : Grid) (size : WorldSize) (chunkPos : Vec3) (x y z : Nat)
    (hout : ¬ inB size x y z) :
    generateResources ctx oreConfig input size chunkPos x y z = input x y z := by
  induction oreConfig generalizing input with
  | nil => simp [generateResources]
  | cons c rest ih =>
    have hstep : generateResources ctx (c :: rest) input size chunkPos =
        generateResources ctx rest (orePass ctx.noise3 c size chunkPos input)
          size chunkPos := by
      simp [generateResources]
    rw [hstep, ih]
    rw [orePass_get, if_neg]
    intro hmem
    exact hout ⟨hmem.1, hmem.2.1, hmem.2.2.1⟩

theorem resources_not_grass (ctx : GenCtx) (oreConfig : List OreEntry)
    (size : WorldSize) (chunkPos : Vec3)
    (hore : ∀ c ∈ oreConfig, c.id ≠ BlockID.Grass) (x y z : Nat) :
    generateResources ctx oreConfig initEmptyChunk size chunkPos x y z ≠
      BlockID.Grass := by
  by_cases hin : inB size x y z
  · rw [generateResources_get ctx oreConfig initEmptyChunk size chunkPos x y z
      hin.1 hin.2.1 hin.2.2]
    cases hL : (oreConfig.filter
        (fun c => decide (orePassCond ctx.noise3 c chunkPos x y z))).getLast? with
    | none => simp [initEmptyChunk]
    | some c =>
      have hmem : c ∈ oreConfig :=
        List.mem_of_mem_filter (mem_of_getLast?_eq_some hL)
      simpa using hore c hmem
  · rw [generateResources_out ctx oreConfig initEmptyChunk size chunkPos x y z hin]
    simp [initEmptyChunk]

theorem jsClamp_mono (a b : ℤ) (height : Nat) (hab : a ≤ b) :
    jsClamp a height ≤ jsClamp b height := by
  unfold jsClamp
  omega

theorem heightAt_le_hub (noise2 : ℚ → ℚ → ℚ) (size : WorldSize)
    (params : WorldParams) (chunkPos : Vec3) (x z : Nat)
    (hn : ∀ a b, |noise2 a b| ≤ 1) :
    heightAt noise2 size params chunkPos x z ≤ hubHeight size params := by
  unfold heightAt hubHeight
  apply jsClamp_mono
  apply Int.floor_le_floor
  apply mul_le_mul_of_nonneg_left _ (by positivity)
  have h3 := hn ((chunkPos.x + (x : ℚ)) / params.terrain.scale)
    ((chunkPos.z + (z : ℚ)) / params.terrain.scale)
  have h1 : params.terrain.magnitude *
      noise2 ((chunkPos.x + (x : ℚ)) / params.terrain.scale)
        ((chunkPos.z + (z : ℚ)) / params.terrain.scale) ≤
      |params.terrain.magnitude| := by
    calc params.terrain.magnitude * _ ≤ |params.terrain.magnitude * _| :=
          le_abs_self _
    _ = |params.terrain.magnitude| * |_| := abs_mul _ _
    _ ≤ |params.terrain.magnitude| * 1 := by
          exact mul_le_mul_of_nonneg_left h3 (abs_nonneg _)
    _ = |params.terrain.magnitude| := mul_one _
  linarith

theorem terrainCellVal_grass (prev : BlockID) (h : Nat) (nb ns : ℚ) (y : Nat)
    (hg : terrainCellVal prev h nb ns y = BlockID.Grass) :
    prev = BlockID.Grass ∨ y = h := by
  unfold terrainCellVal at hg
  by_cases h1 : y < h
  · rw [if_pos h1] at hg
    by_cases h2 : (y : ℚ) < nb
    · rw [if_pos h2] at hg
      exact absurd hg (by simp)
    · rw [if_neg h2] at hg
      by_cases h3 : (y : ℚ) < (h : ℚ) - ns
      · rw [if_pos h3] at hg
        by_cases h4 : prev = BlockID.Air
        · rw [if_pos h4] at hg
          exact absurd hg (by simp)
        · rw [if_neg h4] at hg
          exact Or.inl hg
      · rw [if_neg h3] at hg
        exact absurd hg (by simp)
  · rw [if_neg h1] at hg
    by_cases h5 : y = h
    · exact Or.inr h5
    · rw [if_neg h5] at hg
      exact absurd hg (by simp)

theorem terrain_grass_le_hub (ctx : GenCtx) (oreConfig : List OreEntry)
    (size : WorldSize) (params : WorldParams) (chunkPos : Vec3)
    (hore : ∀ c ∈ oreConfig, c.id ≠ BlockID.Grass)
    (hn : ∀ a b, |ctx.noiseTerrain a b| ≤ 1) (x y z : Nat)
    (hg : generateTerrain ctx
      (generateResources ctx oreConfig initEmptyChunk size chunkPos)
      size params chunkPos x y z = BlockID.Grass) :
    y ≤ hubHeight size params := by
  by_cases hin : inB size x y z
  · rw [generateTerrain_get, if_pos ⟨hin.1, hin.2.1, hin.2.2⟩] at hg
    rcases terrainCellVal_grass _ _ _ _ _ hg with hprev | hyh
    · exact absurd hprev
        (resources_not_grass ctx oreConfig size chunkPos hore x y z)
    · rw [hyh]
      exact heightAt_le_hub ctx.noiseTerrain size params chunkPos x z hn
  · rw [generateTerrain_get, if_neg
        (fun hmem => hin ⟨hmem.1, hmem.2.1, hmem.2.2⟩),
      generateResources_out ctx oreConfig initEmptyChunk size chunkPos x y z hin]
      at hg
    exact absurd hg (by simp [initEmptyChunk])

theorem chunkInv_setCell (size : WorldSize) (hub : Nat) (s : TreeSt)
    (hinv : chunkInv size hub s) (xw yw zw : Nat) (b : BlockID)
    (hb : b ≠ BlockID.Grass) (hxw : xw < size.width) (hyw : yw < size.height)
    (hzw : zw < size.width) (k' : Nat) :
    chunkInv size hub ⟨setCell s.g xw yw zw b, k'⟩ := by
  constructor
  · intro x0 y0 z0 hg
    simp only [setCell_get] at hg
    by_cases ht : x0 = xw ∧ y0 = yw ∧ z0 = zw
    · rw [if_pos ht] at hg
      exact absurd hg hb
    · rw [if_neg ht] at hg
      exact hinv.1 x0 y0 z0 hg
  · intro x0 y0 z0 hout
    simp only [setCell_get]
    rw [if_neg]
    · exact hinv.2 x0 y0 z0 hout
    · intro ⟨h1, h2, h3⟩
      subst h1; subst h2; subst h3
      exact hout ⟨hxw, hyw, hzw⟩

theorem plantTree_ok_inv (ctx : GenCtx) (size : WorldSize) (params : WorldParams)
    (hub : Nat)
    (hrand : ∀ k, 0 ≤ ctx.rand k ∧ ctx.rand k ≤ 1)
    (hmmH : params.trees.trunkHeight.min ≤ params.trees.trunkHeight.max)
    (hmmR : params.trees.canopy.size.min ≤ params.trees.canopy.size.max)
    (hfitLow : params.trees.canopy.size.max ≤ params.trees.trunkHeight.min + 1)
    (hfitHigh : hub + params.trees.trunkHeight.max +
      params.trees.canopy.size.max + 1 < size.height)
    (baseX baseZ : Nat)
    (hbx : baseX ∈ baseRange size params.trees.canopy.size.max)
    (hbz : baseZ ∈ baseRange size params.trees.canopy.size.max)
    (y : Nat) (hy : y ≤ hub) (st : TreeSt) (hinv : chunkInv size hub st) :
    ∃ st', plantTree ctx size params baseX baseZ y st = Except.ok st' ∧
      chunkInv size hub st' := by
  obtain ⟨hbx1, hbx2⟩ := (mem_baseRange size _ baseX).mp hbx
  obtain ⟨hbz1, hbz2⟩ := (mem_baseRange size _ baseZ).mp hbz
  obtain ⟨hT1, hT2⟩ := drawSpan_bounds (ctx.rand st.k)
    params.trees.trunkHeight.min params.trees.trunkHeight.max
    (hrand st.k).1 (hrand st.k).2 hmmH
  simp only [plantTree]
  obtain ⟨st2, htr, hinv2⟩ := foldlM_ok_inv (chunkInv size hub)
    (fun s i => writeY size baseX i baseZ BlockID.OakLog s)
    (intsFrom ((y : ℤ) + 1)
      ((((y : ℤ) + 1) + drawSpan (ctx.rand st.k) params.trees.trunkHeight.min
        params.trees.trunkHeight.max) - (((y : ℤ)) + 1)).toNat)
    (⟨st.g, st.k + 1⟩ : TreeSt)
    (by
      intro s i hi hP
      rw [mem_intsFrom] at hi
      have hib : 0 ≤ i ∧ i < (size.height : ℤ) := by omega
      refine ⟨_, writeY_ok size baseX i baseZ BlockID.OakLog s hib, ?_⟩
      exact chunkInv_setCell size hub s hP baseX i.toNat baseZ BlockID.OakLog
        (by simp) (by omega) (by omega) (by omega) _)
    ⟨hinv.1, hinv.2⟩
  rw [htr, except_ok_bind]
  obtain ⟨hR1, hR2⟩ := drawSpan_bounds (ctx.rand st2.k)
    params.trees.canopy.size.min params.trees.canopy.size.max
    (hrand st2.k).1 (hrand st2.k).2 hmmR
  refine foldlM_ok_inv (chunkInv size hub) _ _ _ ?_ ⟨hinv2.1, hinv2.2⟩
  intro s d hd hP
  rcases mem_canopyOffsets _ d hd with ⟨⟨hdx1, hdx2⟩, ⟨hdy1, hdy2⟩, ⟨hdz1, hdz2⟩⟩
  unfold canopyCell
  by_cases hrad : d.1 * d.1 + d.2.1 * d.2.1 + d.2.2 * d.2.2 >
      drawSpan (ctx.rand st2.k) params.trees.canopy.size.min
        params.trees.canopy.size.max *
      drawSpan (ctx.rand st2.k) params.trees.canopy.size.min
        params.trees.canopy.size.max
  · rw [if_pos hrad]
    exact ⟨s, rfl, hP⟩
  · rw [if_neg hrad]
    have hbounds : 0 ≤ (baseX : ℤ) + d.1 ∧ (baseX : ℤ) + d.1 < (size.width : ℤ) ∧
        0 ≤ (((y : ℤ) + 1) + drawSpan (ctx.rand st.k) params.trees.trunkHeight.min
          params.trees.trunkHeight.max) + d.2.1 ∧
        (((y : ℤ) + 1) + drawSpan (ctx.rand st.k) params.trees.trunkHeight.min
          params.trees.trunkHeight.max) + d.2.1 < (size.height : ℤ) := by
      omega
    obtain ⟨r, hr⟩ := canopyCheck_ok_of_bounds size s.g _ _ _
      ⟨hbounds.1, hbounds.2.1, hbounds.2.2.1, hbounds.2.2.2⟩
    rw [hr, except_ok_bind]
    cases r with
    | true =>
      rw [if_pos rfl]
      exact ⟨s, rfl, hP⟩
    | false =>
      rw [if_neg (by simp)]
      obtain ⟨ha1, ha2, hb1, hb2, hc1, hc2, _⟩ :=
        canopyCheck_ok_false size s.g _ _ _ hr
      by_cases hu : ctx.rand s.k > params.trees.canopy.density
      · rw [if_pos hu]
        refine ⟨_, rfl, ?_⟩
        exact chunkInv_setCell size hub s hP _ _ _ BlockID.Leaves (by simp)
          (by omega) (by omega) (by omega) _
      · rw [if_neg hu]
        exact ⟨⟨s.g, s.k + 1⟩, rfl, ⟨hP.1, hP.2⟩⟩

theorem scanColumn_ok_inv (ctx : GenCtx) (size : WorldSize)
    (params : WorldParams) (hub : Nat)
    (hrand : ∀ k, 0 ≤ ctx.rand k ∧ ctx.rand k ≤ 1)
    (hmmH : params.trees.trunkHeight.min ≤ params.trees.trunkHeight.max)
    (hmmR : params.trees.canopy.size.min ≤ params.trees.canopy.size.max)
    (hfitLow : params.trees.canopy.size.max ≤ params.trees.trunkHeight.min + 1)
    (hfitHigh : hub + params.trees.trunkHeight.max +
      params.trees.canopy.size.max + 1 < size.height)
    (baseX baseZ : Nat)
    (hbx : baseX ∈ baseRange size params.trees.canopy.size.max)
    (hbz : baseZ ∈ baseRange size params.trees.canopy.size.max)
    (st : TreeSt) (hinv : chunkInv size hub st) :
    ∃ st', scanColumn ctx size params baseX baseZ st = Except.ok st' ∧
      chunkInv size hub st' := by
  unfold scanColumn
  refine foldlM_ok_inv (chunkInv size hub) _ _ st ?_ hinv
  intro s y' _ hP
  by_cases hg : s.g baseX y' baseZ = BlockID.Grass
  · rw [if_pos hg]
    exact plantTree_ok_inv ctx size params hub hrand hmmH hmmR hfitLow hfitHigh
      baseX baseZ hbx hbz y' (hP.1 baseX y' baseZ hg) s hP
  · rw [if_neg hg]
    exact ⟨s, rfl, hP⟩

theorem generateTrees_ok_inv (ctx : GenCtx) (size : WorldSize)
    (params : WorldParams) (hub : Nat) (chunkPos : Vec3)
    (hrand : ∀ k, 0 ≤ ctx.rand k ∧ ctx.rand k ≤ 1)
    (hmmH : params.trees.trunkHeight.min ≤ params.trees.trunkHeight.max)
    (hmmR : params.trees.canopy.size.min ≤ params.trees.canopy.size.max)
    (hfitLow : params.trees.canopy.size.max ≤ params.trees.trunkHeight.min + 1)
    (hfitHigh : hub + params.trees.trunkHeight.max +
      params.trees.canopy.size.max + 1 < size.height)
    (st : TreeSt) (hinv : chunkInv size hub st) :
    ∃ st', generateTrees ctx st size params chunkPos = Except.ok st' ∧
      chunkInv size hub st' := by
  simp only [generateTrees]
  refine foldlM_ok_inv (chunkInv size hub) _ _ st ?_ hinv
  intro sX baseX hbx hPX
  refine foldlM_ok_inv (chunkInv size hub) _ _ sX ?_ hPX
  intro sZ baseZ hbz hPZ
  by_cases hgate : ctx.noiseTrees (chunkPos.x + (baseX : ℚ))
      (chunkPos.z + (baseZ : ℚ)) * (1 / 2) + 1 / 2 <
      1 - params.trees.frequency
  · rw [if_pos hgate]
    exact ⟨sZ, rfl, hPZ⟩
  · rw [if_neg hgate]
    exact scanColumn_ok_inv ctx size params hub hrand hmmH hmmR hfitLow hfitHigh
      baseX baseZ hbx hbz sZ hPZ

/-- Claim C1 amended: generateChunk always terminates (it is a total
function of its inputs), and under a valid configuration it returns,
without any error, a grid whose cells outside the configured width and
height extents are untouched, provided additionally that every tree's
writes stay inside the vertical extent: the canopy margin at most the
least trunk height plus one, and the greatest attainable surface height
plus greatest trunk height plus canopy margin staying below the top of
the grid.  Without the added vertical-fit condition the claim is false:
the tree stage's vertical indexing is unguarded and can raise. -/
theorem generateChunk_ok (ctx : GenCtx) (oreConfig : List OreEntry)
    (chunkSize : WorldSize) (params : WorldParams) (x z : ℚ)
    (hnoise : ∀ a b, |ctx.noiseTerrain a b| ≤ 1)
    (hrand : ∀ k, 0 ≤ ctx.rand k ∧ ctx.rand k ≤ 1)
    (hmmH : params.trees.trunkHeight.min ≤ params.trees.trunkHeight.max)
    (hmmR : params.trees.canopy.size.min ≤ params.trees.canopy.size.max)
    (hore : ∀ c ∈ oreConfig, c.id ≠ BlockID.Grass)
    (hfitLow : params.trees.canopy.size.max ≤ params.trees.trunkHeight.min + 1)
    (hfitHigh : hubHeight chunkSize params + params.trees.trunkHeight.max +
      params.trees.canopy.size.max + 1 < chunkSize.height) :
    ∃ g : Grid, generateChunk ctx oreConfig chunkSize params x z = Except.ok g ∧
      (∀ x0 y0 z0, ¬ inB chunkSize x0 y0 z0 → g x0 y0 z0 = BlockID.Air) := by
  simp only [generateChunk]
  have hinv0 : chunkInv chunkSize (hubHeight chunkSize params)
      ⟨generateTerrain ctx
        (generateResources ctx oreConfig initEmptyChunk chunkSize ⟨x, 0, z⟩)
        chunkSize params ⟨x, 0, z⟩, 0⟩ := by
    constructor
    · intro x0 y0 z0 hg
      exact terrain_grass_le_hub ctx oreConfig chunkSize params ⟨x, 0, z⟩
        hore hnoise x0 y0 z0 hg
    · intro x0 y0 z0 hout
      show generateTerrain ctx
        (generateResources ctx oreConfig initEmptyChunk chunkSize ⟨x, 0, z⟩)
        chunkSize params ⟨x, 0, z⟩ x0 y0 z0 = BlockID.Air
      rw [generateTerrain_get, if_neg (fun hm => hout ⟨hm.1, hm.2.1, hm.2.2⟩),
        generateResources_out ctx oreConfig initEmptyChunk chunkSize ⟨x, 0, z⟩
          x0 y0 z0 hout]
      rfl
  obtain ⟨st', htrees, hinv'⟩ := generateTrees_ok_inv ctx chunkSize params
    (hubHeight chunkSize params) ⟨x, 0, z⟩ hrand hmmH hmmR hfitLow hfitHigh
    _ hinv0
  rw [htrees]
  exact ⟨st'.g, rfl, hinv'.2⟩

unseal Rat.add Rat.mul Rat.sub Rat.inv in
/-- Counterexample to claim C1 as stated: a configuration meeting every
stated validity condition (positive width and height, ordered trunk and
canopy bounds, positive finite noise scale) on which generateChunk fails.
With height 1 the terrain surface sits at height 0; the tree stage then
writes a trunk cell at height 1, outside the vertical extent, which in the
source is an assignment through an undefined nested-array entry, raising a
TypeError. -/
theorem generateChunk_valid_config_error :
    0 < (⟨1, 1⟩ : WorldSize).width ∧ 0 < (⟨1, 1⟩ : WorldSize).height ∧
    ((⟨⟨1, 0, 0⟩, ⟨0, 0⟩, ⟨0, 0⟩, ⟨1, ⟨1, 1⟩, ⟨0, ⟨0, 0⟩⟩⟩⟩ :
      WorldParams)).trees.trunkHeight.min ≤
      ((⟨⟨1, 0, 0⟩, ⟨0, 0⟩, ⟨0, 0⟩, ⟨1, ⟨1, 1⟩, ⟨0, ⟨0, 0⟩⟩⟩⟩ :
        WorldParams)).trees.trunkHeight.max ∧
    ((⟨⟨1, 0, 0⟩, ⟨0, 0⟩, ⟨0, 0⟩, ⟨1, ⟨1, 1⟩, ⟨0, ⟨0, 0⟩⟩⟩⟩ :
      WorldParams)).trees.canopy.size.min ≤
      ((⟨⟨1, 0, 0⟩, ⟨0, 0⟩, ⟨0, 0⟩, ⟨1, ⟨1, 1⟩, ⟨0, ⟨0, 0⟩⟩⟩⟩ :
        WorldParams)).trees.canopy.size.max ∧
    (0 : ℚ) < ((⟨⟨1, 0, 0⟩, ⟨0, 0⟩, ⟨0, 0⟩, ⟨1, ⟨1, 1⟩, ⟨0, ⟨0, 0⟩⟩⟩⟩ :
      WorldParams)).terrain.scale ∧
    (generateChunk zeroCtx [] ⟨1, 1⟩
      ⟨⟨1, 0, 0⟩, ⟨0, 0⟩, ⟨0, 0⟩, ⟨1, ⟨1, 1⟩, ⟨0, ⟨0, 0⟩⟩⟩⟩ 0 0).isOk = false := by
  decide

unseal Rat.add Rat.mul Rat.sub Rat.inv in
/-- Witness for the amended claim C1: width 4, height 8, flat terrain at
height 0, trunk height 1, canopy radius 1, tree frequency 1, so trees are
planted and every write fits. -/
theorem generateChunk_ok_witness :
    ∃ g : Grid, generateChunk zeroCtx [] ⟨4, 8⟩
      ⟨⟨1, 0, 0⟩, ⟨0, 0⟩, ⟨0, 0⟩, ⟨1, ⟨1, 1⟩, ⟨0, ⟨1, 1⟩⟩⟩⟩ 0 0 = Except.ok g ∧
      (∀ x0 y0 z0, ¬ inB ⟨4, 8⟩ x0 y0 z0 → g x0 y0 z0 = BlockID.Air) :=
  generateChunk_ok zeroCtx [] ⟨4, 8⟩
    ⟨⟨1, 0, 0⟩, ⟨0, 0⟩, ⟨0, 0⟩, ⟨1, ⟨1, 1⟩, ⟨0, ⟨1, 1⟩⟩⟩⟩ 0 0
    (fun a b => by norm_num [zeroCtx])
    (fun k => by norm_num [zeroCtx])
    (by decide) (by decide) (by simp) (by decide) (by decide)

end Hotalcraft
